import Mathlib

/-!
Verification development for the ruckig online-trajectory-generation core.

The C++ source under verification consists of the headers `path.hpp`,
`segment.hpp`, `trajectory.hpp`, `input_parameter.hpp` and
`output_parameter.hpp`.  `double` arithmetic is embedded as real arithmetic
(division by zero follows Lean's `x / 0 = 0` convention), `std::array<double, DOFs>`
as `Fin n → ℝ`, `std::vector` as `List`, `std::optional` as `Option`.
`size_t` index arithmetic is modelled with explicit wraparound modulo `2 ^ 64`
where the source can underflow.

The headers `profile.hpp`, `block.hpp`, `position.hpp`, `velocity.hpp` and
`brake.hpp` are referenced by the sources but are not part of the repository
snapshot; the entities they declare (`Profile`, `Block`, the Step1/Step2
solvers, the brake computation and `Block::synchronize`) are modelled from the
specification, and `ProfileTrajectory::calculate` is embedded parametrically
over those solver components (a `Solvers` bundle).
-/

noncomputable section

namespace ruckig

/-- A `DOFs`-sized vector of doubles (`std::array<double, DOFs>`). -/
def Vec (n : ℕ) : Type := Fin n → ℝ

instance {n : ℕ} : Inhabited (Vec n) := ⟨fun _ => 0⟩

/-- The list of all degrees of freedom `0, 1, ..., n-1`, in the iteration
order of the `for (size_t dof = 0; dof < DOFs; ++dof)` loops of the source. -/
def allDofs (n : ℕ) : List (Fin n) := List.ofFn id

/-- `std::numeric_limits<double>::epsilon()`, the `eps` constant of
`ProfileTrajectory` (trajectory.hpp line 135). -/
def eps : ℝ := 1 / 2 ^ 52

/-- `CalculationResult` (input_parameter.hpp lines 24-29). -/
inductive CalculationResult where
  | Working
  | ErrorExecutionTimeCalculation
  | ErrorSynchronizationCalculation
  | ErrorTrajectoryDuration
deriving DecidableEq, Repr

/-- `Interface` (input_parameter.hpp lines 36-39). -/
inductive Interface where
  | Position
  | Velocity
deriving DecidableEq, Repr

/-- `Synchronization` (input_parameter.hpp lines 41-45). -/
inductive Synchronization where
  | Time
  | TimeIfNecessary
  | None
deriving DecidableEq, Repr

/-- `DurationDiscretization` (input_parameter.hpp lines 47-50). -/
inductive DurationDiscretization where
  | Continuous
  | Discrete
deriving DecidableEq, Repr

/-- Modelled from the spec: the per-DoF `Profile` record of `profile.hpp`
(missing from the repository snapshot), as described in spec section 3:
a seven-phase jerk schedule `j[0..6]` with segment durations `t[0..6]`,
cumulative times `t_sum[0..6]`, phase-start states `p, v, a[0..6]`, terminal
state `pf, vf, af`, and an optional two-segment brake prelude
(`t_brakes, j_brakes, p_brakes, v_brakes, a_brakes`, total `t_brake`). -/
structure Profile where
  t : Fin 7 → ℝ
  t_sum : Fin 7 → ℝ
  j : Fin 7 → ℝ
  p : Fin 7 → ℝ
  v : Fin 7 → ℝ
  a : Fin 7 → ℝ
  pf : ℝ
  vf : ℝ
  af : ℝ
  t_brakes : Fin 2 → ℝ
  j_brakes : Fin 2 → ℝ
  p_brakes : Fin 2 → ℝ
  v_brakes : Fin 2 → ℝ
  a_brakes : Fin 2 → ℝ
  t_brake : Option ℝ

/-- The default-initialised profile (all numeric fields zero, no brake
prelude), standing for a freshly value-initialised `Profile`. -/
def Profile.init : Profile :=
  ⟨fun _ => 0, fun _ => 0, fun _ => 0, fun _ => 0, fun _ => 0, fun _ => 0,
    0, 0, 0, fun _ => 0, fun _ => 0, fun _ => 0, fun _ => 0, fun _ => 0, Option.none⟩

instance : Inhabited Profile := ⟨Profile.init⟩

/-- Modelled from the spec: `Profile::integrate(Δt, p, v, a, j)` of
`profile.hpp` (missing from the snapshot); spec section 4.1 gives
`a' = a + jΔt`, `v' = v + aΔt + jΔt²/2`, `p' = p + vΔt + aΔt²/2 + jΔt³/6`.
Returns `(p', v', a')` in the order of the C++ `std::tie`. -/
def Profile.integrate (dt p v a j : ℝ) : ℝ × ℝ × ℝ :=
  (p + v * dt + a * dt ^ 2 / 2 + j * dt ^ 3 / 6,
   v + a * dt + j * dt ^ 2 / 2,
   a + j * dt)

/-- `std::upper_bound` on a list of reals: index of the first element greater
than `s`, or the length of the list when no element is greater. -/
def upperBound (s : ℝ) : List ℝ → ℕ
  | [] => 0
  | x :: xs => if s < x then 0 else upperBound s xs + 1

/-- Modelled from the spec: `Profile::state_at_time(t)` of `profile.hpp`
(missing from the snapshot); spec section 4.1: locate `t` within the seven
phases by upper bound on `t_sum`, subtract the preceding cumulative time, and
integrate the found phase from its stored `(p[i], v[i], a[i])` with `j[i]`.
For `t` beyond `t_sum[6]` the behaviour is the caller's responsibility
(the index is clamped to the final phase here). -/
def Profile.state_at_time (pr : Profile) (time : ℝ) : ℝ × ℝ × ℝ :=
  let idx : ℕ := min (upperBound time (List.ofFn pr.t_sum)) 6
  let i : Fin 7 := ⟨idx, by omega⟩
  let t_local : ℝ := if idx = 0 then time else time - pr.t_sum ⟨idx - 1, by omega⟩
  Profile.integrate t_local (pr.p i) (pr.v i) (pr.a i) (pr.j i)

/-- Modelled from the spec: one alternate duration interval of a `Block`
(spec section 3): the referenced profile is feasible over `[left, right]`. -/
structure BlockInterval where
  left : ℝ
  right : ℝ
  profile : Profile

/-- Modelled from the spec: the per-DoF `Block` of `block.hpp` (missing from
the snapshot): minimum feasible duration `t_min`, the time-optimal profile
`p_min` achieving it, and up to two alternate duration intervals `a`, `b`. -/
structure Block where
  t_min : ℝ
  p_min : Profile
  a : Option BlockInterval
  b : Option BlockInterval

/-- A default-initialised block (standing for a value of
`std::array<Block, DOFs> blocks;` before Step1 fills it). -/
def Block.init : Block := ⟨0, Profile.init, Option.none, Option.none⟩

instance : Inhabited Block := ⟨Block.init⟩

variable {n : ℕ}

/-- `LinearSegment` (segment.hpp lines 8-49).  The field `end` of the source
is renamed `stop` (`end` is a Lean keyword). -/
structure LinearSegment (n : ℕ) where
  length : ℝ
  start : Vec n
  stop : Vec n

/-- The sum `Σ_dof (end[dof] - start[dof])²` accumulated by the
`LinearSegment` constructor (segment.hpp lines 17-20). -/
def sumSq (a b : Vec n) : ℝ :=
  (allDofs n).foldl (fun acc d => acc + (b d - a d) ^ 2) 0

/-- The `LinearSegment(start, end)` constructor (segment.hpp lines 16-22):
`length = ‖end - start‖₂`. -/
def linSeg (a b : Vec n) : LinearSegment n :=
  ⟨Real.sqrt (sumSq a b), a, b⟩

/-- `LinearSegment::q(s)` (segment.hpp lines 24-30):
`start + s / length * (end - start)` per DoF. -/
def LinearSegment.q (sg : LinearSegment n) (s : ℝ) : Vec n :=
  fun d => sg.start d + s / sg.length * (sg.stop d - sg.start d)

/-- `LinearSegment::pdq(s)` (segment.hpp lines 32-38). -/
def LinearSegment.pdq (sg : LinearSegment n) (_ : ℝ) : Vec n :=
  fun d => (sg.stop d - sg.start d) / sg.length

/-- `LinearSegment::pddq(s)` (segment.hpp lines 40-43): zero vector. -/
def LinearSegment.pddq (_ : LinearSegment n) (_ : ℝ) : Vec n := fun _ => 0

/-- `LinearSegment::pdddq(s)` (segment.hpp lines 45-48): zero vector. -/
def LinearSegment.pdddq (_ : LinearSegment n) (_ : ℝ) : Vec n := fun _ => 0

/-- `QuarticBlendSegment` data (segment.hpp lines 52-59): blend polynomial
coefficients `b, c, e, f` per DoF, the constructor inputs `lb, lm, rb, rm`,
and the blend parameter length. -/
structure QuarticBlendSegment (n : ℕ) where
  length : ℝ
  b : Vec n
  c : Vec n
  e : Vec n
  f : Vec n
  lb : Vec n
  lm : Vec n
  rb : Vec n
  rm : Vec n

/-- The `QuarticBlendSegment` constructor (segment.hpp lines 62-77).
Per DoF `s_abs[dof] = |(-16·max_diff) / (3·(lm[dof] - rm[dof]))|`,
`s_abs_min = min(min_element(s_abs), s_abs_max)`, `length = 2·s_abs_min`,
and the coefficients `b = (lm-rm)/(16·s³)`, `c = (-lm+rm)/(4·s²)`, `e = lm`,
`f = lb + lm·(s_mid - s)` with `s = s_abs_min`.  For an equal-tangent DoF
(`lm[dof] = rm[dof]`) the IEEE division at line 65 yields `±inf` (with
`max_diff ≠ 0`, the regime of every call site, which guards `0 < bd`), its
absolute value is `+inf`, and `std::min_element`'s `<`-comparisons never
select it over a finite entry, so such DoFs do not affect `s_abs_min`; the
embedding mirrors this over total real division by taking the minimum over
the DoFs with `lm[dof] ≠ rm[dof]` only.  When every DoF is equal-tangent,
`min_element` returns `+inf` and `min(+inf, s_abs_max) = s_abs_max`, the
empty-filter branch below.  `blendHalfLength` is the `s_abs_min` computation
(lines 63-68), `quarticMk` the full constructor. -/
def blendHalfLength (lm rm : Vec n) (max_diff s_abs_max : ℝ) : ℝ :=
  let s_abs : Vec n := fun d => |(-16 * max_diff) / (3 * (lm d - rm d))|
  match (allDofs n).filter fun d => decide (lm d ≠ rm d) with
  | [] => s_abs_max
  | d :: rest => min (rest.foldl (fun m d' => min m (s_abs d')) (s_abs d)) s_abs_max

/-- The `QuarticBlendSegment` constructor proper (segment.hpp lines 69-76):
`length = 2·s_abs_min` and the coefficient arrays. -/
def quarticMk (lb lm rb rm : Vec n) (s_mid max_diff s_abs_max : ℝ) :
    QuarticBlendSegment n :=
  let s_abs_min : ℝ := blendHalfLength lm rm max_diff s_abs_max
  { length := 2 * s_abs_min
    b := fun d => (lm d - rm d) / (16 * s_abs_min * s_abs_min * s_abs_min)
    c := fun d => (-lm d + rm d) / (4 * s_abs_min * s_abs_min)
    e := fun d => lm d
    f := fun d => lb d + lm d * (s_mid - s_abs_min)
    lb := lb, lm := lm, rb := rb, rm := rm }

/-- `QuarticBlendSegment::q(s)` (segment.hpp lines 79-85):
`f + s·(e + s·(s·(c + s·b)))`. -/
def QuarticBlendSegment.q (sg : QuarticBlendSegment n) (s : ℝ) : Vec n :=
  fun d => sg.f d + s * (sg.e d + s * (s * (sg.c d + s * sg.b d)))

/-- `QuarticBlendSegment::pdq(s)` (segment.hpp lines 87-93):
`e + s·(s·(3·c + s·4·b))`. -/
def QuarticBlendSegment.pdq (sg : QuarticBlendSegment n) (s : ℝ) : Vec n :=
  fun d => sg.e d + s * (s * (3 * sg.c d + s * 4 * sg.b d))

/-- `QuarticBlendSegment::pddq(s)` (segment.hpp lines 95-101):
`s·(6·c + s·12·b)`. -/
def QuarticBlendSegment.pddq (sg : QuarticBlendSegment n) (s : ℝ) : Vec n :=
  fun d => s * (6 * sg.c d + s * 12 * sg.b d)

/-- `QuarticBlendSegment::pdddq(s)` (segment.hpp lines 103-109). -/
def QuarticBlendSegment.pdddq (sg : QuarticBlendSegment n) (s : ℝ) : Vec n :=
  fun d => 6 * sg.c d + s * 24 * sg.b d

/-- The closed segment variant
`std::variant<LinearSegment, QuarticBlendSegment>` (path.hpp line 35). -/
inductive Segment (n : ℕ) where
  | linear (sg : LinearSegment n)
  | blend (sg : QuarticBlendSegment n)

/-- The stored parameter length of a segment. -/
def Segment.length : Segment n → ℝ
  | .linear sg => sg.length
  | .blend sg => sg.length

/-- Variant dispatch of `q` (path.hpp line 127). -/
def Segment.q : Segment n → ℝ → Vec n
  | .linear sg => sg.q
  | .blend sg => sg.q

/-- Variant dispatch of `pdq` (path.hpp line 132). -/
def Segment.pdq : Segment n → ℝ → Vec n
  | .linear sg => sg.pdq
  | .blend sg => sg.pdq

/-- Variant dispatch of `pddq` (path.hpp line 137). -/
def Segment.pddq : Segment n → ℝ → Vec n
  | .linear sg => sg.pddq
  | .blend sg => sg.pddq

/-- `PathWaypoint::Reference` (path.hpp lines 19-22). -/
inductive WaypointReference where
  | Absolute
  | Relative
deriving DecidableEq, Repr

/-- `PathWaypoint` (path.hpp lines 15-29). -/
structure PathWaypoint (n : ℕ) where
  reference : WaypointReference := .Absolute
  vector : Vec n
  max_blend_distance : Option ℝ := Option.none

/-- `Path` (path.hpp lines 32-180): resolved absolute waypoints, the compiled
segment sequence, the cumulative segment start lengths and the total length. -/
structure Path (n : ℕ) where
  absolute_waypoints : List (Vec n)
  segments : List (Segment n)
  cumulative_lengths : List ℝ
  length : ℝ

/-- `Path::find_index(s)` (path.hpp lines 40-44):
`index = distance(begin, upper_bound(cumulative_lengths, s)) - 1` as `size_t`
(so the subtraction wraps modulo `2 ^ 64` when the upper bound is the first
element), and the returned offset is `s - cumulative_lengths[index]`.
The source performs no clamping; an access outside the vector is undefined
behaviour in C++ and is modelled as `Option.none`. -/
def Path.find_index (pa : Path n) (s : ℝ) : Option (ℕ × ℝ) :=
  (pa.cumulative_lengths.get?
      ((upperBound s pa.cumulative_lengths + (2 ^ 64 - 1)) % 2 ^ 64)).map
    fun c => ((upperBound s pa.cumulative_lengths + (2 ^ 64 - 1)) % 2 ^ 64, s - c)

/-- `Path::q(s)` (path.hpp lines 125-128), `Option.none` on an out-of-bounds
segment access. -/
def Path.q (pa : Path n) (s : ℝ) : Option (Vec n) :=
  (pa.find_index s).bind fun ic => (pa.segments.get? ic.1).map fun sg => sg.q ic.2

/-- `Path::pdq(s)` (path.hpp lines 130-133). -/
def Path.pdq (pa : Path n) (s : ℝ) : Option (Vec n) :=
  (pa.find_index s).bind fun ic => (pa.segments.get? ic.1).map fun sg => sg.pdq ic.2

/-- `Path::pddq(s)` (path.hpp lines 135-138). -/
def Path.pddq (pa : Path n) (s : ℝ) : Option (Vec n) :=
  (pa.find_index s).bind fun ic => (pa.segments.get? ic.1).map fun sg => sg.pddq ic.2

/-- `Path::dq(s, ds)` (path.hpp lines 145-155): `pdq(s_local) * ds` per DoF. -/
def Path.dq (pa : Path n) (s ds : ℝ) : Option (Vec n) :=
  (pa.find_index s).bind fun ic => (pa.segments.get? ic.1).map fun sg =>
    fun d => sg.pdq ic.2 d * ds

/-- `Path::ddq(s, ds, dds)` (path.hpp lines 157-167):
`pddq·ds² + pdq·dds` per DoF. -/
def Path.ddq (pa : Path n) (s ds dds : ℝ) : Option (Vec n) :=
  (pa.find_index s).bind fun ic => (pa.segments.get? ic.1).map fun sg =>
    fun d => sg.pddq ic.2 d * ds * ds + sg.pdq ic.2 d * dds

/-- Resolution of the waypoint list into absolute positions starting from
`prev` (path.hpp lines 67-77): an absolute waypoint is taken as-is, a
relative one is added to the previous absolute waypoint. -/
def resolveOne (prev : Vec n) (w : PathWaypoint n) : Vec n :=
  match w.reference with
  | .Absolute => w.vector
  | .Relative => fun d => prev d + w.vector d

/-- The waypoint-resolution loop continued from `prev`. -/
def resolveFrom (prev : Vec n) : List (PathWaypoint n) → List (Vec n)
  | [] => []
  | w :: ws => resolveOne prev w :: resolveFrom (resolveOne prev w) ws

/-- `absolute_waypoints[0..N]` (path.hpp lines 58, 64, 67-77): the start
vector followed by the resolved waypoints. -/
def absoluteWaypoints (start : Vec n) (ws : List (PathWaypoint n)) : List (Vec n) :=
  start :: resolveFrom start ws

/-- The accumulator of the segment-compilation loop of the `Path` constructor
(path.hpp lines 82-118): `prev` is the current value of
`line_segments[i - 1]` (mutated to `new_right` after a blend), `cum` the
running `cumulative_length`, and `segs`/`cls` the emitted segments and
cumulative lengths. -/
structure BuildAcc (n : ℕ) where
  prev : LinearSegment n
  cum : ℝ
  segs : List (Segment n)
  cls : List ℝ

/-- One iteration of the `Path` constructor loop (path.hpp lines 84-118) for
the junction whose right line segment is `item.1` and whose waypoint is
`item.2`.  With a positive blend distance it emits the shortened left segment
and the quartic blend and carries the shortened right segment; otherwise it
emits the left segment unchanged. -/
def buildStep (mbd : ℝ) (acc : BuildAcc n) (item : LinearSegment n × PathWaypoint n) :
    BuildAcc n :=
  let right := item.1
  let bd := item.2.max_blend_distance.getD mbd
  if 0 < bd then
    let left := acc.prev
    let lm : Vec n := fun d => (left.stop d - left.start d) / left.length
    let rm : Vec n := fun d => (right.stop d - right.start d) / right.length
    let s_abs_max := min left.length right.length / 2
    let blendSeg := quarticMk left.start lm right.start rm left.length bd s_abs_max
    let s_abs := blendSeg.length / 2
    let new_left := linSeg left.start (left.q (left.length - s_abs))
    let new_right := linSeg (right.q s_abs) right.stop
    let cum1 := acc.cum + new_left.length
    let cum2 := cum1 + blendSeg.length
    ⟨new_right, cum2, acc.segs ++ [.linear new_left, .blend blendSeg],
      acc.cls ++ [cum1, cum2]⟩
  else
    ⟨right, acc.cum + acc.prev.length, acc.segs ++ [.linear acc.prev],
      acc.cls ++ [acc.cum + acc.prev.length]⟩

/-- The `Path` constructor (path.hpp lines 53-123).  The waypoints are
resolved to absolute positions, compiled to line segments, the interior
junctions are folded by `buildStep` (starting from `cumulative_lengths = [0]`,
the `emplace_back(0)` of line 83), and the final (possibly shortened) line
segment is emitted without a matching cumulative-length entry.  The dead
out-of-bounds store `cumulative_lengths[0] = 0` of line 65 has no effect in
this abstraction; its `std::vector` size semantics are settled separately by
the `VecOp` model below.  An empty waypoint list (for which the source runs
into undefined behaviour on `line_segments.back()`) yields a degenerate empty
path. -/
def pathMk (start : Vec n) (waypoints : List (PathWaypoint n)) (mbd : ℝ) : Path n :=
  let aw := absoluteWaypoints start waypoints
  let ls := List.zipWith linSeg aw aw.tail
  match ls with
  | [] => ⟨aw, [], [], 0⟩
  | l0 :: rest =>
    let items := rest.zip (waypoints.drop 1)
    let acc := items.foldl (buildStep mbd) ⟨l0, 0, [], [0]⟩
    ⟨aw, acc.segs ++ [.linear acc.prev], acc.cls, acc.cum + acc.prev.length⟩

/-- The loop invariant of the `Path` constructor embedding: the emitted
cumulative lengths are the prefix sums of the emitted segment lengths
(starting at the initial `emplace_back(0)`), the running total is their sum,
and the first emitted segment — or, before any segment is emitted, the
pending left segment — is a linear segment starting at the path's start
vector. -/
structure BuildInv (start : Vec n) (acc : BuildAcc n) : Prop where
  cls_eq : acc.cls = (acc.segs.map Segment.length).scanl (· + ·) 0
  cum_eq : acc.cum = (acc.segs.map Segment.length).sum
  head_ok : (acc.segs = [] ∧ acc.prev.start = start) ∨
    ∃ lsg t, acc.segs = Segment.linear lsg :: t ∧ lsg.start = start

/-- `InputParameter` (input_parameter.hpp lines 54-131). -/
structure InputParameter (n : ℕ) where
  interface : Interface := .Position
  synchronization : Synchronization := .Time
  duration_discretization : DurationDiscretization := .Continuous
  current_position : Vec n
  current_velocity : Vec n := fun _ => 0
  current_acceleration : Vec n := fun _ => 0
  target_position : Vec n
  target_velocity : Vec n := fun _ => 0
  target_acceleration : Vec n := fun _ => 0
  max_velocity : Vec n
  max_acceleration : Vec n
  max_jerk : Vec n
  min_velocity : Option (Vec n) := Option.none
  min_acceleration : Option (Vec n) := Option.none
  enabled : Fin n → Bool := fun _ => true
  minimum_duration : Option ℝ := Option.none
  path : Option (Path n) := Option.none

/-- `InputParameter::operator!=` (input_parameter.hpp lines 91-110) as the
proposition it decides: the disjunction of the sixteen compared field
inequalities.  The `path` member is not among them. -/
def InputParameter.ne (a b : InputParameter n) : Prop :=
  a.current_position ≠ b.current_position
  ∨ a.current_velocity ≠ b.current_velocity
  ∨ a.current_acceleration ≠ b.current_acceleration
  ∨ a.target_position ≠ b.target_position
  ∨ a.target_velocity ≠ b.target_velocity
  ∨ a.target_acceleration ≠ b.target_acceleration
  ∨ a.max_velocity ≠ b.max_velocity
  ∨ a.max_acceleration ≠ b.max_acceleration
  ∨ a.max_jerk ≠ b.max_jerk
  ∨ a.enabled ≠ b.enabled
  ∨ a.minimum_duration ≠ b.minimum_duration
  ∨ a.min_velocity ≠ b.min_velocity
  ∨ a.min_acceleration ≠ b.min_acceleration
  ∨ a.interface ≠ b.interface
  ∨ a.synchronization ≠ b.synchronization
  ∨ a.duration_discretization ≠ b.duration_discretization

/-- Modelled from the spec: the Step1 `Position1` constructor arguments
(trajectory.hpp line 190): start state, target state and limits. -/
structure PosArgs where
  p0 : ℝ
  v0 : ℝ
  a0 : ℝ
  pf : ℝ
  vf : ℝ
  af : ℝ
  vMax : ℝ
  vMin : ℝ
  aMax : ℝ
  aMin : ℝ
  jMax : ℝ

/-- Modelled from the spec: the `Velocity1` constructor arguments
(trajectory.hpp line 194). -/
structure VelArgs where
  p0 : ℝ
  v0 : ℝ
  a0 : ℝ
  vf : ℝ
  af : ℝ
  aMax : ℝ
  aMin : ℝ
  jMax : ℝ

/-- Modelled from the spec: the two-segment brake prelude produced by
`Brake::get_position_brake_trajectory` / `get_velocity_brake_trajectory`
(brake.hpp, missing from the snapshot; spec section 4.2), written into the
profile's `t_brakes` and `j_brakes`. -/
structure BrakeOut where
  t_brakes : Fin 2 → ℝ
  j_brakes : Fin 2 → ℝ

/-- Modelled from the spec: the outputs of `Block::synchronize` (block.hpp,
missing from the snapshot; spec section 4.5): whether a synchronization was
found, the synchronized duration written through the out-parameter, and the
limiting DoF (`-1` when no DoF is limiting).  The duration out-parameter is
written by the call itself, before the caller checks the return value. -/
structure SyncOut where
  found : Bool
  duration : ℝ
  limiting_dof : ℤ

/-- Modelled from the spec: the solver components used by
`ProfileTrajectory::calculate` whose definitions (`brake.hpp`,
`position.hpp`, `velocity.hpp`, `block.hpp`) are missing from the repository
snapshot.  `calculate` is embedded parametrically over this bundle: the Step1
solvers return the written profile and block (`Option.none` on failure,
the `return false` of spec section 4.3), the Step2 solvers the written
profile (`Option.none` on failure, spec section 4.4), and `synchronize`
decides the common duration (spec section 4.5). -/
structure Solvers (n : ℕ) where
  posBrake : ℝ → ℝ → ℝ → ℝ → ℝ → ℝ → ℝ → BrakeOut
  velBrake : ℝ → ℝ → ℝ → ℝ → BrakeOut
  posStep1 : PosArgs → Profile → Option (Profile × Block)
  velStep1 : VelArgs → Profile → Option (Profile × Block)
  posStep2 : ℝ → PosArgs → Profile → Option Profile
  velStep2 : ℝ → VelArgs → Profile → Option Profile
  synchronize : (Fin n → Block) → Option ℝ → (Fin n → Profile) → Bool → ℝ → SyncOut

/-- The stored state of `ProfileTrajectory` (trajectory.hpp lines 134-143):
synchronized duration, per-DoF independent minimum durations and the per-DoF
profiles. -/
structure ProfileTrajectory (n : ℕ) where
  duration : ℝ
  independent_min_durations : Fin n → ℝ
  profiles : Fin n → Profile

/-- The write performed on a disabled DoF's profile by
`ProfileTrajectory::calculate` (trajectory.hpp lines 153-158):
`pf, vf, af` are set to the current state and `t_sum[6]` to zero; all other
profile fields are left as they were. -/
def disabledUpdate (inp : InputParameter n) (dof : Fin n) (p : Profile) : Profile :=
  { p with
    pf := inp.current_position dof
    vf := inp.current_velocity dof
    af := inp.current_acceleration dof
    t_sum := Function.update p.t_sum 6 0 }

/-- The running state of the per-DoF Step1 loop of `calculate`
(trajectory.hpp lines 147-207): the trajectory state being updated, the
Step1 blocks, the post-brake start states `p0s, v0s, a0s` and the resolved
minimum limits (entries are only meaningful for the enabled DoFs already
processed; the corresponding C++ locals are uninitialised before that). -/
structure Phase1Acc (n : ℕ) where
  st : ProfileTrajectory n
  blocks : Fin n → Block
  p0s : Fin n → ℝ
  v0s : Fin n → ℝ
  a0s : Fin n → ℝ
  minV : Fin n → ℝ
  minA : Fin n → ℝ

/-- The brake preparation of one Step1-loop iteration of `calculate`
(trajectory.hpp lines 161-185): resolve the minimum limits, compute the
brake prelude, write it into the profile (`t_brakes`, `j_brakes`,
`t_brake = t_brakes[0] + t_brakes[1]`), and integrate it to obtain the
post-brake start state.  Returns the updated profile, the start state
`(p0s, v0s, a0s)`, and the resolved `(min_velocity, min_acceleration)`. -/
def step1Prep (S : Solvers n) (inp : InputParameter n) (dof : Fin n) (p : Profile) :
    Profile × (ℝ × ℝ × ℝ) × ℝ × ℝ :=
  let minV := match inp.min_velocity with
    | some mv => mv dof
    | Option.none => -(inp.max_velocity dof)
  let minA := match inp.min_acceleration with
    | some ma => ma dof
    | Option.none => -(inp.max_acceleration dof)
  let bo := match inp.interface with
    | .Position =>
      S.posBrake (inp.current_velocity dof) (inp.current_acceleration dof)
        (inp.max_velocity dof) minV (inp.max_acceleration dof) minA (inp.max_jerk dof)
    | .Velocity =>
      S.velBrake (inp.current_acceleration dof) (inp.max_acceleration dof) minA
        (inp.max_jerk dof)
  let p1 : Profile := { p with
    t_brakes := bo.t_brakes
    j_brakes := bo.j_brakes
    t_brake := some (bo.t_brakes 0 + bo.t_brakes 1) }
  let s0 : ℝ × ℝ × ℝ :=
    (inp.current_position dof, inp.current_velocity dof, inp.current_acceleration dof)
  let r :=
    if (0 : ℝ) < bo.t_brakes 0 then
      let pA : Profile := { p1 with
        p_brakes := Function.update p1.p_brakes 0 s0.1
        v_brakes := Function.update p1.v_brakes 0 s0.2.1
        a_brakes := Function.update p1.a_brakes 0 s0.2.2 }
      let s1 := Profile.integrate (bo.t_brakes 0) s0.1 s0.2.1 s0.2.2 (bo.j_brakes 0)
      if (0 : ℝ) < bo.t_brakes 1 then
        let pB : Profile := { pA with
          p_brakes := Function.update pA.p_brakes 1 s1.1
          v_brakes := Function.update pA.v_brakes 1 s1.2.1
          a_brakes := Function.update pA.a_brakes 1 s1.2.2 }
        (pB, Profile.integrate (bo.t_brakes 1) s1.1 s1.2.1 s1.2.2 (bo.j_brakes 1))
      else (pA, s1)
    else (p1, s0)
  (r.1, r.2, minV, minA)

/-- The Step1 solver dispatch of `calculate` (trajectory.hpp lines 187-197):
run `Position1` or `Velocity1` on the post-brake start state. -/
def step1Run (S : Solvers n) (inp : InputParameter n) (dof : Fin n)
    (p2 : Profile) (s2 : ℝ × ℝ × ℝ) (minV minA : ℝ) : Option (Profile × Block) :=
  match inp.interface with
  | .Position =>
    S.posStep1
      ⟨s2.1, s2.2.1, s2.2.2, inp.target_position dof, inp.target_velocity dof,
        inp.target_acceleration dof, inp.max_velocity dof, minV,
        inp.max_acceleration dof, minA, inp.max_jerk dof⟩ p2
  | .Velocity =>
    S.velStep1
      ⟨s2.1, s2.2.1, s2.2.2, inp.target_velocity dof, inp.target_acceleration dof,
        inp.max_acceleration dof, minA, inp.max_jerk dof⟩ p2

/-- One iteration of the Step1 loop of `calculate` (trajectory.hpp lines
150-207) for DoF `dof`.  A disabled DoF only receives the `disabledUpdate`
write.  An enabled DoF gets its brake prelude computed and integrated
(`step1Prep`), then Step1 is run (`step1Run`); on Step1 failure the loop
aborts with `ErrorExecutionTimeCalculation`, returning the state as mutated
so far (the profile already carries the brake fields); on success the
profile, block, `independent_min_durations[dof]` and the post-brake locals
are stored. -/
def step1Dof (S : Solvers n) (inp : InputParameter n) (acc : Phase1Acc n)
    (dof : Fin n) : Except (CalculationResult × ProfileTrajectory n) (Phase1Acc n) :=
  if inp.enabled dof = false then
    .ok { acc with
      st := { acc.st with
        profiles := Function.update acc.st.profiles dof
          (disabledUpdate inp dof (acc.st.profiles dof)) } }
  else
    let r := step1Prep S inp dof (acc.st.profiles dof)
    match step1Run S inp dof r.1 r.2.1 r.2.2.1 r.2.2.2 with
    | Option.none =>
      .error (.ErrorExecutionTimeCalculation,
        { acc.st with profiles := Function.update acc.st.profiles dof r.1 })
    | some (p3, blk) =>
      .ok { acc with
        st := { acc.st with
          profiles := Function.update acc.st.profiles dof p3
          independent_min_durations :=
            Function.update acc.st.independent_min_durations dof blk.t_min }
        blocks := Function.update acc.blocks dof blk
        p0s := Function.update acc.p0s dof r.2.1.1
        v0s := Function.update acc.v0s dof r.2.1.2.1
        a0s := Function.update acc.a0s dof r.2.1.2.2
        minV := Function.update acc.minV dof r.2.2.1
        minA := Function.update acc.minA dof r.2.2.2 }

/-- The Step1 loop of `calculate` over a DoF list, aborting at the first
Step1 failure. -/
def step1Loop (S : Solvers n) (inp : InputParameter n) :
    List (Fin n) → Phase1Acc n →
    Except (CalculationResult × ProfileTrajectory n) (Phase1Acc n)
  | [], acc => .ok acc
  | dof :: rest, acc =>
    match step1Dof S inp acc dof with
    | .error e => .error e
    | .ok acc' => step1Loop S inp rest acc'

/-- The running state of the time-synchronization loop of `calculate`
(trajectory.hpp lines 226-269): the profiles being overwritten and the list
of DoFs for which the Step2 solver has actually been invoked (the iterations
that reach line 252 instead of taking one of the `continue` shortcuts). -/
structure Phase2Acc (n : ℕ) where
  profiles : Fin n → Profile
  log : List (Fin n)

/-- The `blocks[dof].a` / `blocks[dof].b` shortcut test of `calculate`
(trajectory.hpp lines 243-248): the interval's profile, when the interval
exists and `t_profile` is within `eps` of its right endpoint. -/
def tryInterval (oi : Option BlockInterval) (t_profile : ℝ) : Option Profile :=
  match oi with
  | some ia => if |t_profile - ia.right| < eps then some ia.profile else Option.none
  | Option.none => Option.none

/-- One iteration of the time-synchronization loop of `calculate`
(trajectory.hpp lines 226-269) for DoF `dof`: disabled and limiting DoFs are
skipped; under `TimeIfNecessary` a DoF with target velocity and acceleration
both within `eps` of zero is assigned `blocks[dof].p_min`; a `t_profile`
matching `t_min` or an alternate interval's right endpoint reuses the Step1
profile; otherwise Step2 is invoked (recorded in the log), aborting the loop
with `ErrorSynchronizationCalculation` on failure. -/
def step2Dof (S : Solvers n) (inp : InputParameter n) (duration : ℝ) (limiting : ℤ)
    (blocks : Fin n → Block) (p0s v0s a0s minV minA : Fin n → ℝ)
    (acc : Phase2Acc n) (dof : Fin n) : Except (Phase2Acc n) (Phase2Acc n) :=
  if inp.enabled dof = false ∨ ((dof : ℕ) : ℤ) = limiting then .ok acc
  else
    let p := acc.profiles dof
    let blk := blocks dof
    let t_profile := duration - (p.t_brake.getD 0)
    if inp.synchronization = .TimeIfNecessary ∧ |inp.target_velocity dof| < eps ∧
        |inp.target_acceleration dof| < eps then
      .ok { acc with profiles := Function.update acc.profiles dof blk.p_min }
    else if |t_profile - blk.t_min| < eps then
      .ok { acc with profiles := Function.update acc.profiles dof blk.p_min }
    else match tryInterval blk.a t_profile with
    | some pr => .ok { acc with profiles := Function.update acc.profiles dof pr }
    | Option.none => match tryInterval blk.b t_profile with
      | some pr => .ok { acc with profiles := Function.update acc.profiles dof pr }
      | Option.none =>
        let res := match inp.interface with
          | .Position =>
            S.posStep2 t_profile
              ⟨p0s dof, v0s dof, a0s dof, inp.target_position dof,
                inp.target_velocity dof, inp.target_acceleration dof,
                inp.max_velocity dof, minV dof, inp.max_acceleration dof,
                minA dof, inp.max_jerk dof⟩ p
          | .Velocity =>
            S.velStep2 t_profile
              ⟨p0s dof, v0s dof, a0s dof, inp.target_velocity dof,
                inp.target_acceleration dof, inp.max_acceleration dof,
                minA dof, inp.max_jerk dof⟩ p
        match res with
        | some p2 =>
          .ok ⟨Function.update acc.profiles dof p2, acc.log ++ [dof]⟩
        | Option.none => .error ⟨acc.profiles, acc.log ++ [dof]⟩

/-- The time-synchronization loop of `calculate` over a DoF list, aborting at
the first Step2 failure. -/
def step2Loop (S : Solvers n) (inp : InputParameter n) (duration : ℝ) (limiting : ℤ)
    (blocks : Fin n → Block) (p0s v0s a0s minV minA : Fin n → ℝ) :
    List (Fin n) → Phase2Acc n → Except (Phase2Acc n) (Phase2Acc n)
  | [], acc => .ok acc
  | dof :: rest, acc =>
    match step2Dof S inp duration limiting blocks p0s v0s a0s minV minA acc dof with
    | .error e => .error e
    | .ok acc' => step2Loop S inp duration limiting blocks p0s v0s a0s minV minA rest acc'

/-- The full outcome of `calculate`, instrumented for verification: the
returned `CalculationResult`, the trajectory state after the call, and — on
runs that reach them — the Step1 blocks, the limiting DoF chosen by the
synchronizer, and the list of DoFs for which Step2 was invoked.  On a Step1
failure the blocks field holds `Block.init` placeholders and the limiting
DoF is `-1`. -/
structure CalcOutcome (n : ℕ) where
  result : CalculationResult
  st : ProfileTrajectory n
  blocks : Fin n → Block
  limiting_dof : ℤ
  step2_invoked : List (Fin n)

/-- `ProfileTrajectory::calculate` after the Step1 loop (trajectory.hpp
lines 209-281), in the non-throwing build, instrumented as a `CalcOutcome`.
`guard` is the `return_error_at_maximal_duration` template parameter (lines
219-223, ceiling `7.6e3`).  The control flow follows the source:
`Block::synchronize` (whose duration out-parameter is written before the
success check), the duration guard, and then either the time-synchronization
loop (`duration > 0` and synchronization not `None`), the
`Synchronization::None` assignment loop, or nothing. -/
def calcPost (S : Solvers n) (inp : InputParameter n) (delta_time : ℝ) (guard : Bool)
    (acc : Phase1Acc n) : CalcOutcome n :=
  let discrete := inp.duration_discretization = .Discrete
  let so := S.synchronize acc.blocks inp.minimum_duration acc.st.profiles discrete delta_time
  let st1 : ProfileTrajectory n := { acc.st with duration := so.duration }
  if so.found = false then
    ⟨.ErrorSynchronizationCalculation, st1, acc.blocks, so.limiting_dof, []⟩
  else if guard = true ∧ 7.6e3 < so.duration then
    ⟨.ErrorTrajectoryDuration, st1, acc.blocks, so.limiting_dof, []⟩
  else if 0 < so.duration ∧ inp.synchronization ≠ .None then
    match step2Loop S inp so.duration so.limiting_dof acc.blocks acc.p0s acc.v0s
        acc.a0s acc.minV acc.minA (allDofs n) ⟨acc.st.profiles, []⟩ with
    | .error acc2 =>
      ⟨.ErrorSynchronizationCalculation, { st1 with profiles := acc2.profiles },
        acc.blocks, so.limiting_dof, acc2.log⟩
    | .ok acc2 =>
      ⟨.Working, { st1 with profiles := acc2.profiles },
        acc.blocks, so.limiting_dof, acc2.log⟩
  else if inp.synchronization = .None then
    let profs : Fin n → Profile := fun d =>
      if inp.enabled d = true ∧ ((d : ℕ) : ℤ) ≠ so.limiting_dof then (acc.blocks d).p_min
      else st1.profiles d
    ⟨.Working, { st1 with profiles := profs }, acc.blocks, so.limiting_dof, []⟩
  else
    ⟨.Working, st1, acc.blocks, so.limiting_dof, []⟩

/-- The initial Step1-loop accumulator: the stored trajectory state, plus
default-initialised blocks and zeroed locals (the C++ locals are
uninitialised; they are only read for DoFs that Step1 has filled). -/
def initAcc (st : ProfileTrajectory n) : Phase1Acc n :=
  ⟨st, fun _ => Block.init, fun _ => 0, fun _ => 0, fun _ => 0, fun _ => 0, fun _ => 0⟩

/-- The Step1 half of `calculate` followed by `calcPost`. -/
def calcFull (S : Solvers n) (st : ProfileTrajectory n) (inp : InputParameter n)
    (delta_time : ℝ) (guard : Bool) : CalcOutcome n :=
  match step1Loop S inp (allDofs n) (initAcc st) with
  | .error (r, st') => ⟨r, st', fun _ => Block.init, -1, []⟩
  | .ok acc => calcPost S inp delta_time guard acc

/-- `ProfileTrajectory::calculate` as the caller sees it: the returned
`CalculationResult` and the trajectory state after the call. -/
def ProfileTrajectory.calculate (S : Solvers n) (st : ProfileTrajectory n)
    (inp : InputParameter n) (delta_time : ℝ) (guard : Bool) :
    CalculationResult × ProfileTrajectory n :=
  ((calcFull S st inp delta_time guard).result, (calcFull S st inp delta_time guard).st)

/-- The post-brake half of the per-DoF `at_time` evaluation (trajectory.hpp
lines 311-318): constant-acceleration continuation from the terminal state
once the adjusted time reaches `t_sum[6]`, otherwise `state_at_time`. -/
def profileTail (p : Profile) (td : ℝ) : ℝ × ℝ × ℝ :=
  if p.t_sum 6 ≤ td then Profile.integrate (td - p.t_sum 6) p.pf p.vf p.af 0
  else p.state_at_time td

/-- The brake-prelude dispatch of the per-DoF `at_time` evaluation
(trajectory.hpp lines 296-309): select brake segment 0 or 1 while
`time < t_brake`, otherwise hand the brake-adjusted time to `profileTail`. -/
def profileAtTime (p : Profile) (time : ℝ) : ℝ × ℝ × ℝ :=
  match p.t_brake with
  | some tb =>
    if time < tb then
      let i : Fin 2 := if time < p.t_brakes 0 then 0 else 1
      let td := if time < p.t_brakes 0 then time else time - p.t_brakes 0
      Profile.integrate td (p.p_brakes i) (p.v_brakes i) (p.a_brakes i) (p.j_brakes i)
    else profileTail p (time - tb)
  | Option.none => profileTail p time

/-- `ProfileTrajectory::at_time` (trajectory.hpp lines 284-320).  All three
out-parameters are written for every DoF in every branch, so the embedding
returns the three fresh arrays `(new_position, new_velocity,
new_acceleration)`.  For `time > duration` each DoF is integrated from its
stored terminal state with zero jerk. -/
def ProfileTrajectory.at_time (st : ProfileTrajectory n) (time : ℝ) :
    Vec n × Vec n × Vec n :=
  if st.duration < time then
    (fun d => (Profile.integrate (time - st.duration) (st.profiles d).pf
        (st.profiles d).vf (st.profiles d).af 0).1,
     fun d => (Profile.integrate (time - st.duration) (st.profiles d).pf
        (st.profiles d).vf (st.profiles d).af 0).2.1,
     fun d => (Profile.integrate (time - st.duration) (st.profiles d).pf
        (st.profiles d).vf (st.profiles d).af 0).2.2)
  else
    (fun d => (profileAtTime (st.profiles d) time).1,
     fun d => (profileAtTime (st.profiles d) time).2.1,
     fun d => (profileAtTime (st.profiles d) time).2.2)

/-- The stored state of `PathTrajectory` (trajectory.hpp lines 21-53). -/
structure PathTrajectory (n : ℕ) where
  s0 : ℝ
  ds0 : ℝ
  dds0 : ℝ
  sf : ℝ
  dsf : ℝ
  ddsf : ℝ
  p0 : Vec n
  v0 : Vec n
  a0 : Vec n
  pf : Vec n
  vf : Vec n
  af : Vec n
  main_profile : Profile
  duration : ℝ
  independent_min_durations : Vec n
  path : Path n

/-- `PathTrajectory::time_parametrization` (trajectory.hpp lines 36-45):
decode the scalar profile state at `time` into `(s, ṡ, s̈)` by the scale
`(main_profile.pf - main_profile.p[0]) / segments[0].length`.  The
`std::get<LinearSegment>` of the source throws unless the first segment is
linear; that and an empty segment list are modelled as `Option.none`. -/
def PathTrajectory.time_parametrization (tr : PathTrajectory n) (time : ℝ) :
    Option (ℝ × ℝ × ℝ) :=
  match tr.path.segments.head? with
  | some (.linear sg) =>
    let r := tr.main_profile.state_at_time time
    let scale := (tr.main_profile.pf - tr.main_profile.p 0) / sg.length
    some (r.1 / scale, r.2.1 / scale, r.2.2 / scale)
  | _ => Option.none

/-- The values computed by the body of `PathTrajectory::at_time`
(trajectory.hpp lines 110-123): terminal constant-acceleration continuation
for `time > duration`, otherwise the path state at the decoded arc-length
parametrization.  `Option.none` models the exceptional / out-of-bounds
paths. -/
def PathTrajectory.at_time_body (tr : PathTrajectory n) (time : ℝ) :
    Option (Vec n × Vec n × Vec n) :=
  if tr.duration < time then
    some
      (fun d => (Profile.integrate (time - tr.duration) (tr.pf d) (tr.vf d) (tr.af d) 0).1,
       fun d => (Profile.integrate (time - tr.duration) (tr.pf d) (tr.vf d) (tr.af d) 0).2.1,
       fun d => (Profile.integrate (time - tr.duration) (tr.pf d) (tr.vf d) (tr.af d) 0).2.2)
  else
    match tr.time_parametrization time with
    | some (s, ds, dds) =>
      match tr.path.q s, tr.path.dq s ds, tr.path.ddq s ds dds with
      | some kp, some kv, some ka => some (kp, kv, ka)
      | _, _, _ => Option.none
    | Option.none => Option.none

/-- The caller-visible effect of a call to `PathTrajectory::at_time(time,
new_position, new_velocity, new_acceleration)` (trajectory.hpp line 110).
`new_position` and `new_acceleration` are reference parameters, so the caller
receives the computed values; `new_velocity` is a value parameter, so the
writes the body makes to it are lost and the caller's argument keeps the
value `vel_in` it had before the call. -/
def PathTrajectory.at_time_call (tr : PathTrajectory n) (time : ℝ) (vel_in : Vec n) :
    Option (Vec n × Vec n × Vec n) :=
  (tr.at_time_body time).map fun r => (r.1, vel_in, r.2.2)

/-- A `std::vector<double>` operation, for the size-tracking model of the
`Path` constructor's `cumulative_lengths` manipulation. -/
inductive VecOp where
  | reserve (m : ℕ)
  | setIdx (i : ℕ) (x : ℝ)
  | push (x : ℝ)

/-- Execution of one vector operation on a vector of the given elements.
`reserve` changes capacity only, not the element count; `operator[]`
assignment to an index not below the element count is out of bounds
(undefined behaviour), modelled as `Option.none`; `emplace_back` appends. -/
def execOp (v : List ℝ) : VecOp → Option (List ℝ)
  | .reserve _ => some v
  | .setIdx i x => if i < v.length then some (v.set i x) else Option.none
  | .push x => some (v ++ [x])

/-- Execution of a sequence of vector operations, stopping at the first
out-of-bounds operation. -/
def execOps (v : List ℝ) : List VecOp → Option (List ℝ)
  | [] => some v
  | op :: rest =>
    match execOp v op with
    | some v' => execOps v' rest
    | Option.none => Option.none

/-- The operations the `Path` constructor performs on the newly
default-constructed `cumulative_lengths` vector, in source order:
`reserve(2 * waypoints.size())` (path.hpp line 62), the index assignment
`cumulative_lengths[0] = 0` (line 65), `emplace_back(0)` (line 83), followed
by the `emplace_back` calls of the junction loop (lines 105, 109, 116),
which depend on the waypoints and are abstracted as the `loopPushes` list. -/
def pathCtorClOps (waypointCount : ℕ) (loopPushes : List ℝ) : List VecOp :=
  [.reserve (2 * waypointCount), .setIdx 0 0, .push 0] ++ loopPushes.map .push

/-! Concrete fixtures used by the witnesses and counterexamples below. -/

/-- A single-waypoint path from the origin to the unit point of one DoF. -/
def pathW1 : Path 1 :=
  pathMk (fun _ => 0) [{ vector := fun _ => (1 : ℝ) }] 0

/-- A path whose first waypoint coincides with the start vector, producing a
zero-length first segment. -/
def pathDup : Path 1 :=
  pathMk (fun _ => 0) [{ vector := fun _ => (0 : ℝ) }, { vector := fun _ => (1 : ℝ) }] 0

/-- A freshly constructed trajectory state: zero duration, default
profiles. -/
def trajW {n : ℕ} : ProfileTrajectory n := ⟨0, fun _ => 0, fun _ => Profile.init⟩

/-- A solver bundle whose brake preludes are empty, whose Step1/Step2 always
fail, and whose synchronizer reports failure — a legitimate environment
under spec sections 4.3-4.5, which allow every solver stage to fail. -/
def solversFail : Solvers 1 :=
  { posBrake := fun _ _ _ _ _ _ _ => ⟨fun _ => 0, fun _ => 0⟩
    velBrake := fun _ _ _ _ => ⟨fun _ => 0, fun _ => 0⟩
    posStep1 := fun _ _ => Option.none
    velStep1 := fun _ _ => Option.none
    posStep2 := fun _ _ _ => Option.none
    velStep2 := fun _ _ _ => Option.none
    synchronize := fun _ _ _ _ _ => ⟨false, 0, -1⟩ }

/-- A solver bundle with empty brakes whose synchronizer succeeds with
duration 1 and no limiting DoF. -/
def solversSync1 : Solvers 1 :=
  { posBrake := fun _ _ _ _ _ _ _ => ⟨fun _ => 0, fun _ => 0⟩
    velBrake := fun _ _ _ _ => ⟨fun _ => 0, fun _ => 0⟩
    posStep1 := fun _ _ => some (Profile.init, Block.init)
    velStep1 := fun _ _ => some (Profile.init, Block.init)
    posStep2 := fun _ _ _ => some Profile.init
    velStep2 := fun _ _ _ => some Profile.init
    synchronize := fun _ _ _ _ _ => ⟨true, 1, -1⟩ }

/-- A one-DoF position-interface input moving from 0 to 1 under unit
limits. -/
def inpW1 : InputParameter 1 :=
  { current_position := fun _ => 0
    target_position := fun _ => 1
    max_velocity := fun _ => 1
    max_acceleration := fun _ => 1
    max_jerk := fun _ => 1 }

/-- A one-DoF input whose only DoF is disabled while its current velocity is
nonzero. -/
def inpDis : InputParameter 1 :=
  { current_position := fun _ => 0
    current_velocity := fun _ => 1
    target_position := fun _ => 0
    max_velocity := fun _ => 1
    max_acceleration := fun _ => 1
    max_jerk := fun _ => 1
    enabled := fun _ => false }

/-- A marked Step1 block, recognisable by its `p_min` terminal position. -/
def blkMarked : Block :=
  ⟨1, { Profile.init with pf := 42 }, Option.none, Option.none⟩

/-- A two-DoF solver bundle: empty brakes, Step1 returns `blkMarked`, the
synchronizer picks duration 5 with limiting DoF 0. -/
def solversTwo : Solvers 2 :=
  { posBrake := fun _ _ _ _ _ _ _ => ⟨fun _ => 0, fun _ => 0⟩
    velBrake := fun _ _ _ _ => ⟨fun _ => 0, fun _ => 0⟩
    posStep1 := fun _ _ => some (Profile.init, blkMarked)
    velStep1 := fun _ _ => some (Profile.init, blkMarked)
    posStep2 := fun _ _ _ => some Profile.init
    velStep2 := fun _ _ _ => some Profile.init
    synchronize := fun _ _ _ _ _ => ⟨true, 5, 0⟩ }

/-- A two-DoF `TimeIfNecessary` input at rest targets. -/
def inpTIN : InputParameter 2 :=
  { synchronization := .TimeIfNecessary
    current_position := fun _ => 0
    target_position := fun _ => 0
    max_velocity := fun _ => 1
    max_acceleration := fun _ => 1
    max_jerk := fun _ => 1 }

/-- The `Path` constructor's fold state after the junction loop, for a
nonempty waypoint list `w :: ws` (the `match` arm of `pathMk` spelt out). -/
def buildOf (start : Vec n) (w : PathWaypoint n) (ws : List (PathWaypoint n))
    (mbd : ℝ) : BuildAcc n :=
  ((List.zipWith linSeg (resolveOne start w :: resolveFrom (resolveOne start w) ws)
      (resolveFrom (resolveOne start w) ws)).zip ws).foldl (buildStep mbd)
    ⟨linSeg start (resolveOne start w), 0, [], [0]⟩

/-- The post-brake Step1 preparation of `solversTwo` on `inpTIN` for one
DoF, from a default profile. -/
def prepTIN (dof : Fin 2) : Profile × (ℝ × ℝ × ℝ) × ℝ × ℝ :=
  step1Prep solversTwo inpTIN dof Profile.init

/-- The Step1-loop output of `solversTwo` on `inpTIN` from a fresh
trajectory state. -/
def accTIN : Phase1Acc 2 :=
  ⟨⟨0,
      Function.update (Function.update (fun _ => 0) 0 blkMarked.t_min) 1 blkMarked.t_min,
      Function.update (Function.update (fun _ => Profile.init) 0 Profile.init) 1
        Profile.init⟩,
    Function.update (Function.update (fun _ => Block.init) 0 blkMarked) 1 blkMarked,
    Function.update (Function.update (fun _ => 0) 0 (prepTIN 0).2.1.1) 1 (prepTIN 1).2.1.1,
    Function.update (Function.update (fun _ => 0) 0 (prepTIN 0).2.1.2.1) 1
      (prepTIN 1).2.1.2.1,
    Function.update (Function.update (fun _ => 0) 0 (prepTIN 0).2.1.2.2) 1
      (prepTIN 1).2.1.2.2,
    Function.update (Function.update (fun _ => 0) 0 (prepTIN 0).2.2.1) 1 (prepTIN 1).2.2.1,
    Function.update (Function.update (fun _ => 0) 0 (prepTIN 0).2.2.2) 1 (prepTIN 1).2.2.2⟩

/-- A path trajectory whose stored terminal velocity is 1 on its single DoF
and whose duration is 0. -/
def ptrajW : PathTrajectory 1 :=
  { s0 := 0, ds0 := 0, dds0 := 0, sf := 0, dsf := 0, ddsf := 0
    p0 := fun _ => 0, v0 := fun _ => 0, a0 := fun _ => 0
    pf := fun _ => 0, vf := fun _ => 1, af := fun _ => 0
    main_profile := Profile.init
    duration := 0
    independent_min_durations := fun _ => 0
    path := pathW1 }

/-! Theorems. -/

theorem upperBound_le_length (s : ℝ) : ∀ l : List ℝ, upperBound s l ≤ l.length := by
  intro l
  induction l with
  | nil => simp [upperBound]
  | cons x xs ih =>
    by_cases h : s < x
    · simp [upperBound, h]
    · simp [upperBound, h]
      omega

theorem upperBound_eq_length (s : ℝ) (l : List ℝ) (h : ∀ x ∈ l, ¬ s < x) :
    upperBound s l = l.length := by
  induction l with
  | nil => simp [upperBound]
  | cons x xs ih =>
    have hx : ¬ s < x := h x (by simp)
    simp [upperBound, hx]
    exact ih fun y hy => h y (by simp [hy])

/-- C9: in every invocation of the `Path` constructor, the assignment
`cumulative_lengths[0] = 0` (path.hpp line 65) executes while the vector has
no element at index 0 — only `reserve` has been called — so the index-assign
writes outside the vector's valid range, whatever the waypoint count and
whatever values the junction loop later pushes; the in-bounds first element
is only created by the later `emplace_back`. -/
theorem path_ctor_initial_write_out_of_bounds (waypointCount : ℕ)
    (loopPushes : List ℝ) :
    execOps [] (pathCtorClOps waypointCount loopPushes) = Option.none := by
  simp [pathCtorClOps, execOps, execOp]

/-- C7: for every stored `ProfileTrajectory` state and every `t > duration`,
`at_time` yields per DoF the constant-acceleration (zero-jerk) continuation
of the stored terminal state `(pf, vf, af)`: `a(t) = af`,
`v(t) = vf + af·(t - duration)` and
`p(t) = pf + vf·(t - duration) + af·(t - duration)²/2`. -/
theorem at_time_extrapolates_terminal_state {n : ℕ} (st : ProfileTrajectory n)
    (time : ℝ) (d : Fin n) (h : st.duration < time) :
    (st.at_time time).2.2 d = (st.profiles d).af ∧
    (st.at_time time).2.1 d =
      (st.profiles d).vf + (st.profiles d).af * (time - st.duration) ∧
    (st.at_time time).1 d =
      (st.profiles d).pf + (st.profiles d).vf * (time - st.duration)
        + (st.profiles d).af * (time - st.duration) ^ 2 / 2 := by
  simp [ProfileTrajectory.at_time, h, Profile.integrate]

theorem at_time_extrapolates_terminal_state_witness :
    (trajW (n := 1)).duration < 2 ∧
    (((trajW (n := 1)).at_time 2).2.2 0 = ((trajW (n := 1)).profiles 0).af ∧
     ((trajW (n := 1)).at_time 2).2.1 0 =
       ((trajW (n := 1)).profiles 0).vf
         + ((trajW (n := 1)).profiles 0).af * (2 - (trajW (n := 1)).duration) ∧
     ((trajW (n := 1)).at_time 2).1 0 =
       ((trajW (n := 1)).profiles 0).pf
         + ((trajW (n := 1)).profiles 0).vf * (2 - (trajW (n := 1)).duration)
         + ((trajW (n := 1)).profiles 0).af * (2 - (trajW (n := 1)).duration) ^ 2 / 2) :=
  ⟨by norm_num [trajW],
   at_time_extrapolates_terminal_state (trajW (n := 1)) 2 0 (by norm_num [trajW])⟩

/-- C6: a `QuarticBlendSegment` constructed with a positive half-length
`s_min = length / 2` C¹-matches both neighbours — `pdq(0) = lm` and
`pdq(length) = rm` — and has zero second derivative at both endpoints:
`pddq(0) = 0` and `pddq(length) = 0`. -/
theorem quartic_blend_boundary_derivatives {n : ℕ} (lb lm rb rm : Vec n)
    (s_mid max_diff s_abs_max : ℝ)
    (h : 0 < (quarticMk lb lm rb rm s_mid max_diff s_abs_max).length) (d : Fin n) :
    (quarticMk lb lm rb rm s_mid max_diff s_abs_max).pdq 0 d = lm d ∧
    (quarticMk lb lm rb rm s_mid max_diff s_abs_max).pdq
      (quarticMk lb lm rb rm s_mid max_diff s_abs_max).length d = rm d ∧
    (quarticMk lb lm rb rm s_mid max_diff s_abs_max).pddq 0 d = 0 ∧
    (quarticMk lb lm rb rm s_mid max_diff s_abs_max).pddq
      (quarticMk lb lm rb rm s_mid max_diff s_abs_max).length d = 0 := by
  have hs : blendHalfLength lm rm max_diff s_abs_max ≠ 0 := by
    intro h0
    rw [quarticMk] at h
    simp only [h0, mul_zero] at h
    exact lt_irrefl 0 h
  refine ⟨?_, ?_, ?_, ?_⟩
  · simp [quarticMk, QuarticBlendSegment.pdq]
  · simp only [quarticMk, QuarticBlendSegment.pdq]
    field_simp
    ring
  · simp [quarticMk, QuarticBlendSegment.pddq]
  · simp only [quarticMk, QuarticBlendSegment.pddq]
    field_simp
    ring

theorem quartic_blend_boundary_derivatives_witness :
    0 < (quarticMk (n := 2) (fun _ => 0) (fun d => ((d : ℕ) : ℝ)) (fun _ => 0)
      (fun _ => 0) 0 (3 / 16) 2).length ∧
    ((quarticMk (n := 2) (fun _ => 0) (fun d => ((d : ℕ) : ℝ)) (fun _ => 0)
        (fun _ => 0) 0 (3 / 16) 2).pdq 0 1 = 1 ∧
     (quarticMk (n := 2) (fun _ => 0) (fun d => ((d : ℕ) : ℝ)) (fun _ => 0)
        (fun _ => 0) 0 (3 / 16) 2).pdq
      (quarticMk (n := 2) (fun _ => 0) (fun d => ((d : ℕ) : ℝ)) (fun _ => 0)
        (fun _ => 0) 0 (3 / 16) 2).length 1 = 0 ∧
     (quarticMk (n := 2) (fun _ => 0) (fun d => ((d : ℕ) : ℝ)) (fun _ => 0)
        (fun _ => 0) 0 (3 / 16) 2).pddq 0 1 = 0 ∧
     (quarticMk (n := 2) (fun _ => 0) (fun d => ((d : ℕ) : ℝ)) (fun _ => 0)
        (fun _ => 0) 0 (3 / 16) 2).pddq
      (quarticMk (n := 2) (fun _ => 0) (fun d => ((d : ℕ) : ℝ)) (fun _ => 0)
        (fun _ => 0) 0 (3 / 16) 2).length 1 = 0) := by
  have hbhl : blendHalfLength (n := 2) (fun d => ((d : ℕ) : ℝ)) (fun _ => 0)
      (3 / 16) 2 = 1 := by
    norm_num [blendHalfLength, allDofs, List.ofFn_succ, List.filter_cons, min_def]
  have hlen : 0 < (quarticMk (n := 2) (fun _ => 0) (fun d => ((d : ℕ) : ℝ))
      (fun _ => 0) (fun _ => 0) 0 (3 / 16) 2).length := by
    simp only [quarticMk]
    rw [hbhl]
    norm_num
  obtain ⟨h1, h2, h3, h4⟩ := quartic_blend_boundary_derivatives (n := 2)
    (fun _ => 0) (fun d => ((d : ℕ) : ℝ)) (fun _ => 0) (fun _ => 0) 0 (3 / 16) 2
    hlen 1
  refine ⟨hlen, ?_, h2, h3, h4⟩
  simpa using h1

/-- C10: `InputParameter::operator!=` ignores the `path` member: two inputs
that agree on all sixteen compared fields (kinematic states, limits, enabled
flags, minimum duration and the three mode enums) but differ in the optional
`path` member compare equal — the inequality test is false — so a driver that
re-runs `calculate` only when the input changes will not detect a path
change. -/
theorem input_ne_ignores_path {n : ℕ} (a b : InputParameter n)
    (h1 : a.current_position = b.current_position)
    (h2 : a.current_velocity = b.current_velocity)
    (h3 : a.current_acceleration = b.current_acceleration)
    (h4 : a.target_position = b.target_position)
    (h5 : a.target_velocity = b.target_velocity)
    (h6 : a.target_acceleration = b.target_acceleration)
    (h7 : a.max_velocity = b.max_velocity)
    (h8 : a.max_acceleration = b.max_acceleration)
    (h9 : a.max_jerk = b.max_jerk)
    (h10 : a.enabled = b.enabled)
    (h11 : a.minimum_duration = b.minimum_duration)
    (h12 : a.min_velocity = b.min_velocity)
    (h13 : a.min_acceleration = b.min_acceleration)
    (h14 : a.interface = b.interface)
    (h15 : a.synchronization = b.synchronization)
    (h16 : a.duration_discretization = b.duration_discretization)
    (hpath : a.path ≠ b.path) :
    ¬ InputParameter.ne a b := by
  simp [InputParameter.ne, h1, h2, h3, h4, h5, h6, h7, h8, h9, h10, h11, h12,
    h13, h14, h15, h16]

theorem input_ne_ignores_path_witness :
    inpW1.path ≠ ({ inpW1 with path := some pathW1 } : InputParameter 1).path ∧
    ¬ InputParameter.ne inpW1 { inpW1 with path := some pathW1 } := by
  have hpath : inpW1.path ≠ ({ inpW1 with path := some pathW1 } : InputParameter 1).path := by
    simp [inpW1]
  exact ⟨hpath, input_ne_ignores_path inpW1 { inpW1 with path := some pathW1 }
    rfl rfl rfl rfl rfl rfl rfl rfl rfl rfl rfl rfl rfl rfl rfl rfl hpath⟩

theorem pathW1_cumulative_lengths : pathW1.cumulative_lengths = [0] := by
  simp [pathW1, pathMk, absoluteWaypoints, resolveFrom, resolveOne]

theorem pathW1_segments :
    pathW1.segments = [Segment.linear (linSeg (fun _ => 0) (fun _ => (1 : ℝ)))] := by
  simp [pathW1, pathMk, absoluteWaypoints, resolveFrom, resolveOne]

/-- C4 (counterexample): `Path::find_index` is not clamped.  On the
single-segment path `pathW1` (whose `cumulative_lengths` is `[0]`), the query
`s = -1` makes `upper_bound` return the first position, the `size_t`
subtraction `index = 0 - 1` wraps to `2^64 - 1`, and the subsequent
`cumulative_lengths[index]` access is out of bounds — not an index in
`[0, M-1]` as the claim states. -/
theorem find_index_negative_underflows :
    pathW1.cumulative_lengths.length = 1 ∧
    pathW1.find_index (-1) = Option.none := by
  constructor
  · rw [pathW1_cumulative_lengths]
    rfl
  · have hub : upperBound (-1) pathW1.cumulative_lengths = 0 := by
      rw [pathW1_cumulative_lengths]
      norm_num [upperBound]
    have hget : pathW1.cumulative_lengths.get?
        ((upperBound (-1) pathW1.cumulative_lengths + (2 ^ 64 - 1)) % 2 ^ 64)
        = Option.none := by
      rw [hub, pathW1_cumulative_lengths]
      apply List.get?_eq_none.mpr
      have h2 : (0 + (2 ^ 64 - 1)) % 2 ^ 64 = 2 ^ 64 - 1 := by norm_num
      rw [h2]
      norm_num
    rw [Path.find_index, hget]
    rfl

/-- C4 (amended): for every path and every `s ≥ 0`, given that
`cumulative_lengths` starts with `0` (as the constructor guarantees) and the
vector sizes are below `2^64` with `segments` and `cumulative_lengths` of
equal size, `find_index(s)` returns `(i, s - cumulative_lengths[i])` with
`i = upper_bound(cumulative_lengths, s) - 1`, and `i` is in bounds for both
`cumulative_lengths` and `segments`; no clamping is involved.  For `s < 0`
the unclamped `size_t` index underflows out of bounds (see the
counterexample). -/
theorem find_index_nonneg_in_bounds {n : ℕ} (pa : Path n) (s : ℝ)
    (h0 : 0 ≤ s) (hhead : pa.cumulative_lengths.head? = some 0)
    (hlen : pa.cumulative_lengths.length < 2 ^ 64)
    (hseg : pa.segments.length = pa.cumulative_lengths.length) :
    ∃ c, pa.cumulative_lengths.get? (upperBound s pa.cumulative_lengths - 1) = some c ∧
      pa.find_index s = some (upperBound s pa.cumulative_lengths - 1, s - c) ∧
      upperBound s pa.cumulative_lengths - 1 < pa.segments.length := by
  obtain ⟨rest, hcl⟩ : ∃ rest, pa.cumulative_lengths = (0 : ℝ) :: rest := by
    cases hc : pa.cumulative_lengths with
    | nil => rw [hc] at hhead; simp at hhead
    | cons x xs =>
      rw [hc] at hhead
      simp at hhead
      exact ⟨xs, by rw [hhead]⟩
  have hub1 : 1 ≤ upperBound s pa.cumulative_lengths := by
    rw [hcl]
    simp [upperBound, not_lt.mpr h0]
  have hubl : upperBound s pa.cumulative_lengths ≤ pa.cumulative_lengths.length :=
    upperBound_le_length s _
  have hidx : (upperBound s pa.cumulative_lengths + (2 ^ 64 - 1)) % 2 ^ 64 =
      upperBound s pa.cumulative_lengths - 1 := by
    omega
  have hlt : upperBound s pa.cumulative_lengths - 1 < pa.cumulative_lengths.length := by
    omega
  obtain ⟨c, hc⟩ : ∃ c, pa.cumulative_lengths.get?
      (upperBound s pa.cumulative_lengths - 1) = some c := by
    rw [List.get?_eq_get hlt]
    exact ⟨_, rfl⟩
  refine ⟨c, hc, ?_, ?_⟩
  · rw [Path.find_index, hidx, hc]
    rfl
  · omega

theorem find_index_nonneg_in_bounds_witness :
    (0 : ℝ) ≤ 0 ∧ pathW1.cumulative_lengths.head? = some 0 ∧
    pathW1.cumulative_lengths.length < 2 ^ 64 ∧
    pathW1.segments.length = pathW1.cumulative_lengths.length ∧
    ∃ c, pathW1.cumulative_lengths.get? (upperBound 0 pathW1.cumulative_lengths - 1)
        = some c ∧
      pathW1.find_index 0 = some (upperBound 0 pathW1.cumulative_lengths - 1, 0 - c) ∧
      upperBound 0 pathW1.cumulative_lengths - 1 < pathW1.segments.length := by
  have hhead : pathW1.cumulative_lengths.head? = some 0 := by
    rw [pathW1_cumulative_lengths]; rfl
  have hlen : pathW1.cumulative_lengths.length < 2 ^ 64 := by
    rw [pathW1_cumulative_lengths]; norm_num
  have hseg : pathW1.segments.length = pathW1.cumulative_lengths.length := by
    rw [pathW1_cumulative_lengths, pathW1_segments]
    rfl
  exact ⟨le_refl 0, hhead, hlen, hseg,
    find_index_nonneg_in_bounds pathW1 0 (le_refl 0) hhead hlen hseg⟩

/-- C3: `PathTrajectory::at_time` does not write the caller's `new_velocity`.
On the concrete trajectory `ptrajW` (terminal velocity 1, duration 0) at
`time = 1 > duration`, the body computes `new_velocity[0] = 1`, but because
`new_velocity` is a value parameter the caller's argument (here initialised
to 0) is returned unchanged — the out-parameter contract of the claim is
violated for the velocity component. -/
theorem path_at_time_velocity_not_written :
    (∃ r, ptrajW.at_time_body 1 = some r ∧ r.2.1 0 = 1) ∧
    (∃ r', ptrajW.at_time_call 1 (fun _ => 0) = some r' ∧ r'.2.1 0 = 0) := by
  have hbody : ptrajW.at_time_body 1 =
      some (fun d => (Profile.integrate (1 - ptrajW.duration) (ptrajW.pf d)
          (ptrajW.vf d) (ptrajW.af d) 0).1,
        fun d => (Profile.integrate (1 - ptrajW.duration) (ptrajW.pf d)
          (ptrajW.vf d) (ptrajW.af d) 0).2.1,
        fun d => (Profile.integrate (1 - ptrajW.duration) (ptrajW.pf d)
          (ptrajW.vf d) (ptrajW.af d) 0).2.2) := by
    unfold PathTrajectory.at_time_body
    rw [if_pos (by norm_num [ptrajW])]
  constructor
  · refine ⟨_, hbody, ?_⟩
    norm_num [ptrajW, Profile.integrate]
  · unfold PathTrajectory.at_time_call
    rw [hbody]
    exact ⟨_, rfl, rfl⟩

theorem mem_allDofs {n : ℕ} (d : Fin n) : d ∈ allDofs n := by
  simp [allDofs, List.mem_ofFn]

theorem nodup_allDofs {n : ℕ} : (allDofs n).Nodup := by
  simp [allDofs]
  exact List.nodup_ofFn.mpr fun a b h => h

theorem step1Dof_ok_frame {n : ℕ} {S : Solvers n} {inp : InputParameter n}
    {acc acc' : Phase1Acc n} {dof : Fin n}
    (h : step1Dof S inp acc dof = .ok acc') :
    acc'.st.duration = acc.st.duration ∧
    ∀ d : Fin n, d ≠ dof →
      acc'.st.profiles d = acc.st.profiles d ∧ acc'.blocks d = acc.blocks d := by
  simp only [step1Dof] at h
  split at h
  · cases h
    exact ⟨rfl, fun d hd => ⟨Function.update_noteq hd _ _, rfl⟩⟩
  · split at h
    · cases h
    · cases h
      exact ⟨rfl, fun d hd =>
        ⟨Function.update_noteq hd _ _, Function.update_noteq hd _ _⟩⟩

theorem step1Dof_error_frame {n : ℕ} {S : Solvers n} {inp : InputParameter n}
    {acc : Phase1Acc n} {dof : Fin n}
    {e : CalculationResult × ProfileTrajectory n}
    (h : step1Dof S inp acc dof = .error e) :
    e.1 = .ErrorExecutionTimeCalculation ∧ e.2.duration = acc.st.duration := by
  simp only [step1Dof] at h
  split at h
  · cases h
  · split at h
    · cases h
      exact ⟨rfl, rfl⟩
    · cases h

theorem step1Dof_disabled {n : ℕ} {S : Solvers n} {inp : InputParameter n}
    {acc : Phase1Acc n} {dof : Fin n} (hdis : inp.enabled dof = false) :
    step1Dof S inp acc dof = .ok { acc with
      st := { acc.st with
        profiles := Function.update acc.st.profiles dof
          (disabledUpdate inp dof (acc.st.profiles dof)) } } := by
  rw [step1Dof, if_pos hdis]

theorem step1Loop_ok_duration {n : ℕ} {S : Solvers n} {inp : InputParameter n} :
    ∀ (l : List (Fin n)) (acc acc' : Phase1Acc n),
      step1Loop S inp l acc = .ok acc' → acc'.st.duration = acc.st.duration := by
  intro l
  induction l with
  | nil =>
    intro acc acc' h
    cases h
    rfl
  | cons dof rest ih =>
    intro acc acc' h
    simp only [step1Loop] at h
    rcases hd : step1Dof S inp acc dof with e | a1 <;> rw [hd] at h
    · cases h
    · exact (ih a1 acc' h).trans (step1Dof_ok_frame hd).1

theorem step1Loop_error_frame {n : ℕ} {S : Solvers n} {inp : InputParameter n} :
    ∀ (l : List (Fin n)) (acc : Phase1Acc n)
      (e : CalculationResult × ProfileTrajectory n),
      step1Loop S inp l acc = .error e →
      e.1 = .ErrorExecutionTimeCalculation ∧ e.2.duration = acc.st.duration := by
  intro l
  induction l with
  | nil =>
    intro acc e h
    cases h
  | cons dof rest ih =>
    intro acc e h
    simp only [step1Loop] at h
    rcases hd : step1Dof S inp acc dof with e1 | a1 <;> rw [hd] at h
    · cases h
      exact step1Dof_error_frame hd
    · have := ih a1 e h
      exact ⟨this.1, this.2.trans (step1Dof_ok_frame hd).1⟩

theorem step1Loop_not_mem_profile {n : ℕ} {S : Solvers n} {inp : InputParameter n}
    {dof : Fin n} :
    ∀ (l : List (Fin n)) (acc acc' : Phase1Acc n), dof ∉ l →
      step1Loop S inp l acc = .ok acc' →
      acc'.st.profiles dof = acc.st.profiles dof ∧ acc'.blocks dof = acc.blocks dof := by
  intro l
  induction l with
  | nil =>
    intro acc acc' _ h
    cases h
    exact ⟨rfl, rfl⟩
  | cons d rest ih =>
    intro acc acc' hmem h
    simp only [step1Loop] at h
    rcases hd : step1Dof S inp acc d with e | a1 <;> rw [hd] at h
    · cases h
    · have hne : dof ≠ d := fun hc => hmem (by rw [hc]; exact List.mem_cons_self d rest)
      have h1 := (step1Dof_ok_frame hd).2 dof hne
      have h2 := ih a1 acc' (fun hc => hmem (List.mem_cons_of_mem d hc)) h
      exact ⟨h2.1.trans h1.1, h2.2.trans h1.2⟩

theorem step1Loop_disabled_profile {n : ℕ} {S : Solvers n} {inp : InputParameter n}
    {dof : Fin n} (hdis : inp.enabled dof = false) :
    ∀ (l : List (Fin n)) (acc acc' : Phase1Acc n), dof ∈ l → l.Nodup →
      step1Loop S inp l acc = .ok acc' →
      acc'.st.profiles dof = disabledUpdate inp dof (acc.st.profiles dof) := by
  intro l
  induction l with
  | nil =>
    intro acc acc' hmem _ _
    cases hmem
  | cons d rest ih =>
    intro acc acc' hmem hnd h
    simp only [step1Loop] at h
    rcases hd : step1Dof S inp acc d with e | a1 <;> rw [hd] at h
    · cases h
    · by_cases hdd : dof = d
      · subst hdd
        have hnotin : dof ∉ rest := (List.nodup_cons.mp hnd).1
        have hpres := (step1Loop_not_mem_profile rest a1 acc' hnotin h).1
        rw [step1Dof_disabled hdis] at hd
        cases hd
        rw [hpres]
        exact Function.update_same _ _ _
      · have hmem' : dof ∈ rest := by
          cases List.mem_cons.mp hmem with
          | inl hc => exact absurd hc hdd
          | inr hc => exact hc
        have := ih a1 acc' hmem' (List.nodup_cons.mp hnd).2 h
        rw [this, ((step1Dof_ok_frame hd).2 dof hdd).1]

theorem step2Dof_skip {n : ℕ} {S : Solvers n} {inp : InputParameter n}
    {duration : ℝ} {limiting : ℤ} {blocks : Fin n → Block}
    {p0s v0s a0s minV minA : Fin n → ℝ} {acc : Phase2Acc n} {dof : Fin n}
    (h : inp.enabled dof = false ∨ ((dof : ℕ) : ℤ) = limiting) :
    step2Dof S inp duration limiting blocks p0s v0s a0s minV minA acc dof = .ok acc := by
  rw [step2Dof, if_pos h]

theorem step2Dof_tin {n : ℕ} {S : Solvers n} {inp : InputParameter n}
    {duration : ℝ} {limiting : ℤ} {blocks : Fin n → Block}
    {p0s v0s a0s minV minA : Fin n → ℝ} {acc : Phase2Acc n} {dof : Fin n}
    (hskip : ¬(inp.enabled dof = false ∨ ((dof : ℕ) : ℤ) = limiting))
    (hcond : inp.synchronization = .TimeIfNecessary ∧
      |inp.target_velocity dof| < eps ∧ |inp.target_acceleration dof| < eps) :
    step2Dof S inp duration limiting blocks p0s v0s a0s minV minA acc dof =
      .ok { acc with profiles := Function.update acc.profiles dof (blocks dof).p_min } := by
  simp only [step2Dof]
  rw [if_neg hskip, if_pos hcond]

theorem step2Dof_ok_frame {n : ℕ} {S : Solvers n} {inp : InputParameter n}
    {duration : ℝ} {limiting : ℤ} {blocks : Fin n → Block}
    {p0s v0s a0s minV minA : Fin n → ℝ} {acc acc' : Phase2Acc n} {dof : Fin n}
    (h : step2Dof S inp duration limiting blocks p0s v0s a0s minV minA acc dof
      = .ok acc') :
    (∀ d : Fin n, d ≠ dof → acc'.profiles d = acc.profiles d) ∧
    (acc'.log = acc.log ∨ acc'.log = acc.log ++ [dof]) := by
  simp only [step2Dof] at h
  split at h
  · cases h
    exact ⟨fun d _ => rfl, Or.inl rfl⟩
  · split at h
    · cases h
      exact ⟨fun d hd => Function.update_noteq hd _ _, Or.inl rfl⟩
    · split at h
      · cases h
        exact ⟨fun d hd => Function.update_noteq hd _ _, Or.inl rfl⟩
      · split at h
        · cases h
          exact ⟨fun d hd => Function.update_noteq hd _ _, Or.inl rfl⟩
        · split at h
          · cases h
            exact ⟨fun d hd => Function.update_noteq hd _ _, Or.inl rfl⟩
          · split at h
            · cases h
              exact ⟨fun d hd => Function.update_noteq hd _ _, Or.inr rfl⟩
            · cases h

theorem step2Loop_ok_not_mem {n : ℕ} {S : Solvers n} {inp : InputParameter n}
    {duration : ℝ} {limiting : ℤ} {blocks : Fin n → Block}
    {p0s v0s a0s minV minA : Fin n → ℝ} {dof : Fin n} :
    ∀ (l : List (Fin n)) (acc acc' : Phase2Acc n), dof ∉ l →
      step2Loop S inp duration limiting blocks p0s v0s a0s minV minA l acc = .ok acc' →
      acc'.profiles dof = acc.profiles dof ∧ (dof ∈ acc'.log ↔ dof ∈ acc.log) := by
  intro l
  induction l with
  | nil =>
    intro acc acc' _ h
    cases h
    exact ⟨rfl, Iff.rfl⟩
  | cons d rest ih =>
    intro acc acc' hmem h
    simp only [step2Loop] at h
    rcases hd : step2Dof S inp duration limiting blocks p0s v0s a0s minV minA acc d
      with e | a1 <;> rw [hd] at h
    · cases h
    · have hne : dof ≠ d := fun hc => hmem (by rw [hc]; exact List.mem_cons_self d rest)
      have hf := step2Dof_ok_frame hd
      have h2 := ih a1 acc' (fun hc => hmem (List.mem_cons_of_mem d hc)) h
      refine ⟨h2.1.trans (hf.1 dof hne), h2.2.trans ?_⟩
      rcases hf.2 with hl | hl <;> rw [hl]
      simp [hne]

theorem step2Loop_disabled {n : ℕ} {S : Solvers n} {inp : InputParameter n}
    {duration : ℝ} {limiting : ℤ} {blocks : Fin n → Block}
    {p0s v0s a0s minV minA : Fin n → ℝ} {dof : Fin n}
    (hdis : inp.enabled dof = false) :
    ∀ (l : List (Fin n)) (acc acc' : Phase2Acc n),
      step2Loop S inp duration limiting blocks p0s v0s a0s minV minA l acc = .ok acc' →
      acc'.profiles dof = acc.profiles dof := by
  intro l
  induction l with
  | nil =>
    intro acc acc' h
    cases h
    rfl
  | cons d rest ih =>
    intro acc acc' h
    simp only [step2Loop] at h
    rcases hd : step2Dof S inp duration limiting blocks p0s v0s a0s minV minA acc d
      with e | a1 <;> rw [hd] at h
    · cases h
    · by_cases hdd : dof = d
      · subst hdd
        rw [step2Dof_skip (Or.inl hdis)] at hd
        cases hd
        exact ih acc acc' h
      · exact (ih a1 acc' h).trans ((step2Dof_ok_frame hd).1 dof hdd)

theorem step2Loop_tin_profile {n : ℕ} {S : Solvers n} {inp : InputParameter n}
    {duration : ℝ} {limiting : ℤ} {blocks : Fin n → Block}
    {p0s v0s a0s minV minA : Fin n → ℝ} {dof : Fin n}
    (hskip : ¬(inp.enabled dof = false ∨ ((dof : ℕ) : ℤ) = limiting))
    (hcond : inp.synchronization = .TimeIfNecessary ∧
      |inp.target_velocity dof| < eps ∧ |inp.target_acceleration dof| < eps) :
    ∀ (l : List (Fin n)) (acc acc' : Phase2Acc n), dof ∈ l → l.Nodup →
      step2Loop S inp duration limiting blocks p0s v0s a0s minV minA l acc = .ok acc' →
      acc'.profiles dof = (blocks dof).p_min ∧ (dof ∈ acc'.log ↔ dof ∈ acc.log) := by
  intro l
  induction l with
  | nil =>
    intro acc acc' hmem _ _
    cases hmem
  | cons d rest ih =>
    intro acc acc' hmem hnd h
    simp only [step2Loop] at h
    rcases hd : step2Dof S inp duration limiting blocks p0s v0s a0s minV minA acc d
      with e | a1 <;> rw [hd] at h
    · cases h
    · by_cases hdd : dof = d
      · subst hdd
        have hnotin : dof ∉ rest := (List.nodup_cons.mp hnd).1
        have hpres := step2Loop_ok_not_mem rest a1 acc' hnotin h
        rw [step2Dof_tin hskip hcond] at hd
        cases hd
        refine ⟨hpres.1.trans (Function.update_same _ _ _), hpres.2⟩
      · have hmem' : dof ∈ rest := by
          cases List.mem_cons.mp hmem with
          | inl hc => exact absurd hc hdd
          | inr hc => exact hc
        have h2 := ih a1 acc' hmem' (List.nodup_cons.mp hnd).2 h
        have hf := step2Dof_ok_frame hd
        refine ⟨h2.1, h2.2.trans ?_⟩
        rcases hf.2 with hl | hl <;> rw [hl]
        simp [hdd]

theorem calcPost_result_not_exec {n : ℕ} {S : Solvers n} {inp : InputParameter n}
    {dt : ℝ} {g : Bool} {acc : Phase1Acc n} :
    (calcPost S inp dt g acc).result ≠ .ErrorExecutionTimeCalculation := by
  simp only [calcPost]
  split
  · simp
  · split
    · simp
    · split
      · split <;> simp
      · split <;> simp

theorem calcPost_disabled_profile {n : ℕ} {S : Solvers n} {inp : InputParameter n}
    {dt : ℝ} {g : Bool} {acc : Phase1Acc n} {dof : Fin n}
    (hdis : inp.enabled dof = false)
    (hres : (calcPost S inp dt g acc).result = .Working) :
    (calcPost S inp dt g acc).st.profiles dof = acc.st.profiles dof := by
  simp only [calcPost] at hres ⊢
  set so := S.synchronize acc.blocks inp.minimum_duration acc.st.profiles
    (inp.duration_discretization = .Discrete) dt with hso
  by_cases h1 : so.found = false
  · rw [if_pos h1] at hres
    simp at hres
  · rw [if_neg h1] at hres ⊢
    by_cases h2 : g = true ∧ 7.6e3 < so.duration
    · rw [if_pos h2] at hres
      simp at hres
    · rw [if_neg h2] at hres ⊢
      by_cases h3 : 0 < so.duration ∧ inp.synchronization ≠ .None
      · rw [if_pos h3] at hres ⊢
        split at hres
        next e heq =>
          simp at hres
        next a2 heq =>
          exact step2Loop_disabled hdis (allDofs n) _ a2 heq
      · rw [if_neg h3] at hres ⊢
        by_cases h5 : inp.synchronization = .None
        · rw [if_pos h5] at hres ⊢
          simp [hdis]
        · rw [if_neg h5] at hres ⊢

theorem calcFull_error_exec_duration {n : ℕ} {S : Solvers n}
    {st : ProfileTrajectory n} {inp : InputParameter n} {dt : ℝ} {g : Bool}
    (h : (calcFull S st inp dt g).result = .ErrorExecutionTimeCalculation) :
    (calcFull S st inp dt g).st.duration = st.duration := by
  rcases hl : step1Loop S inp (allDofs n) (initAcc st) with ⟨r, st'⟩ | acc
  · have hfull : calcFull S st inp dt g = ⟨r, st', fun _ => Block.init, -1, []⟩ := by
      simp only [calcFull, hl]
    rw [hfull]
    exact (step1Loop_error_frame (allDofs n) (initAcc st) (r, st') hl).2
  · have hfull : calcFull S st inp dt g = calcPost S inp dt g acc := by
      simp only [calcFull, hl]
    rw [hfull] at h
    exact absurd h calcPost_result_not_exec

theorem calcFull_working_disabled_profile {n : ℕ} {S : Solvers n}
    {st : ProfileTrajectory n} {inp : InputParameter n} {dt : ℝ} {g : Bool}
    {dof : Fin n} (hdis : inp.enabled dof = false)
    (hres : (calcFull S st inp dt g).result = .Working) :
    (calcFull S st inp dt g).st.profiles dof =
      disabledUpdate inp dof (st.profiles dof) := by
  rcases hl : step1Loop S inp (allDofs n) (initAcc st) with ⟨r, st'⟩ | acc
  · have hfull : calcFull S st inp dt g = ⟨r, st', fun _ => Block.init, -1, []⟩ := by
      simp only [calcFull, hl]
    rw [hfull] at hres
    have herr := (step1Loop_error_frame (allDofs n) (initAcc st) (r, st') hl).1
    simp only at hres
    rw [hres] at herr
    cases herr
  · have hfull : calcFull S st inp dt g = calcPost S inp dt g acc := by
      simp only [calcFull, hl]
    rw [hfull] at hres ⊢
    rw [calcPost_disabled_profile hdis hres]
    exact step1Loop_disabled_profile hdis (allDofs n) (initAcc st) acc
      (mem_allDofs dof) nodup_allDofs hl

/-- C1 (amended): `calculate` is not error-atomic — profiles and
`independent_min_durations` entries of DoFs processed before the failure may
already be overwritten when an error is returned (see the counterexample) —
but on `ErrorExecutionTimeCalculation` (a Step1 failure) the stored
`duration` is still unchanged, because the error return precedes the
`Block::synchronize` call that writes it. -/
theorem calculate_step1_error_preserves_duration {n : ℕ} (S : Solvers n)
    (st : ProfileTrajectory n) (inp : InputParameter n) (dt : ℝ) (g : Bool)
    (h : (ProfileTrajectory.calculate S st inp dt g).1 = .ErrorExecutionTimeCalculation) :
    (ProfileTrajectory.calculate S st inp dt g).2.duration = st.duration :=
  calcFull_error_exec_duration h

/-- C2 (amended): after a successful `calculate`, a disabled DoF whose stored
profile carries no brake prelude is evaluated by `at_time` (for
`0 ≤ t ≤ duration`) as the constant-acceleration continuation of the cycle's
current state: `new_position[dof] = current_position + current_velocity·t +
current_acceleration·t²/2`.  The position is held (equal to
`current_position`) only when the current velocity and acceleration vanish;
in general the disabled DoF drifts (see the counterexample). -/
theorem calculate_disabled_dof_extrapolates {n : ℕ} (S : Solvers n)
    (st : ProfileTrajectory n) (inp : InputParameter n) (dt : ℝ) (g : Bool)
    (dof : Fin n) (t : ℝ)
    (hdis : inp.enabled dof = false)
    (hbr : (st.profiles dof).t_brake = Option.none)
    (hres : (ProfileTrajectory.calculate S st inp dt g).1 = .Working)
    (ht0 : (0 : ℝ) ≤ t)
    (ht1 : t ≤ (ProfileTrajectory.calculate S st inp dt g).2.duration) :
    ((ProfileTrajectory.calculate S st inp dt g).2.at_time t).1 dof =
      inp.current_position dof + inp.current_velocity dof * t
        + inp.current_acceleration dof * t ^ 2 / 2 := by
  have hprof : (ProfileTrajectory.calculate S st inp dt g).2.profiles dof =
      disabledUpdate inp dof (st.profiles dof) :=
    calcFull_working_disabled_profile hdis hres
  have hbr' : (disabledUpdate inp dof (st.profiles dof)).t_brake = Option.none := hbr
  have hts : (disabledUpdate inp dof (st.profiles dof)).t_sum 6 = 0 := by
    simp [disabledUpdate]
  have heval : profileAtTime (disabledUpdate inp dof (st.profiles dof)) t =
      Profile.integrate (t - 0) (inp.current_position dof)
        (inp.current_velocity dof) (inp.current_acceleration dof) 0 := by
    simp only [profileAtTime, hbr', profileTail, hts]
    rw [if_pos ht0]
    rfl
  unfold ProfileTrajectory.at_time
  rw [if_neg (not_lt.mpr ht1)]
  show (profileAtTime ((ProfileTrajectory.calculate S st inp dt g).2.profiles dof) t).1 = _
  rw [hprof, heval]
  simp [Profile.integrate]

theorem calcPost_components {n : ℕ} {S : Solvers n} {inp : InputParameter n}
    {dt : ℝ} {g : Bool} {acc : Phase1Acc n} :
    (calcPost S inp dt g acc).limiting_dof =
      (S.synchronize acc.blocks inp.minimum_duration acc.st.profiles
        (inp.duration_discretization = .Discrete) dt).limiting_dof ∧
    (calcPost S inp dt g acc).st.duration =
      (S.synchronize acc.blocks inp.minimum_duration acc.st.profiles
        (inp.duration_discretization = .Discrete) dt).duration ∧
    (calcPost S inp dt g acc).blocks = acc.blocks := by
  simp only [calcPost]
  split
  · exact ⟨rfl, rfl, rfl⟩
  · split
    · exact ⟨rfl, rfl, rfl⟩
    · split
      · split <;> exact ⟨rfl, rfl, rfl⟩
      · split <;> exact ⟨rfl, rfl, rfl⟩

theorem calcPost_tin_profile {n : ℕ} {S : Solvers n} {inp : InputParameter n}
    {dt : ℝ} {g : Bool} {acc : Phase1Acc n} {dof : Fin n}
    (hres : (calcPost S inp dt g acc).result = .Working)
    (hsync : inp.synchronization = .TimeIfNecessary)
    (hdur : 0 < (calcPost S inp dt g acc).st.duration)
    (hen : inp.enabled dof = true)
    (hlim : ((dof : ℕ) : ℤ) ≠ (calcPost S inp dt g acc).limiting_dof)
    (htv : |inp.target_velocity dof| < eps)
    (hta : |inp.target_acceleration dof| < eps) :
    (calcPost S inp dt g acc).st.profiles dof =
      ((calcPost S inp dt g acc).blocks dof).p_min ∧
    dof ∉ (calcPost S inp dt g acc).step2_invoked := by
  have hcomp := @calcPost_components n S inp dt g acc
  have hlim' : ((dof : ℕ) : ℤ) ≠
      (S.synchronize acc.blocks inp.minimum_duration acc.st.profiles
        (inp.duration_discretization = .Discrete) dt).limiting_dof := by
    rw [← hcomp.1]; exact hlim
  have hdur' : 0 <
      (S.synchronize acc.blocks inp.minimum_duration acc.st.profiles
        (inp.duration_discretization = .Discrete) dt).duration := by
    rw [← hcomp.2.1]; exact hdur
  simp only [calcPost] at hres ⊢
  set so := S.synchronize acc.blocks inp.minimum_duration acc.st.profiles
    (inp.duration_discretization = .Discrete) dt with hso
  have hskip : ¬(inp.enabled dof = false ∨ ((dof : ℕ) : ℤ) = so.limiting_dof) := by
    rintro (hc | hc)
    · rw [hen] at hc
      cases hc
    · exact hlim' hc
  have hcond : inp.synchronization = .TimeIfNecessary ∧
      |inp.target_velocity dof| < eps ∧ |inp.target_acceleration dof| < eps :=
    ⟨hsync, htv, hta⟩
  have h3 : 0 < so.duration ∧ inp.synchronization ≠ .None := by
    refine ⟨hdur', ?_⟩
    rw [hsync]
    exact fun hc => nomatch hc
  by_cases h1 : so.found = false
  · rw [if_pos h1] at hres
    simp at hres
  · rw [if_neg h1] at hres ⊢
    by_cases h2 : g = true ∧ 7.6e3 < so.duration
    · rw [if_pos h2] at hres
      simp at hres
    · rw [if_neg h2] at hres ⊢
      rw [if_pos h3] at hres ⊢
      split at hres
      next e heq =>
        simp at hres
      next a2 heq =>
        have htin := step2Loop_tin_profile hskip hcond (allDofs n)
          ⟨acc.st.profiles, []⟩ a2 (mem_allDofs dof) nodup_allDofs heq
        refine ⟨htin.1, ?_⟩
        intro hmem
        have := htin.2.mp hmem
        simp at this

/-- C8: in `calculate` under `Synchronization::TimeIfNecessary` with a
positive synchronized duration, every enabled non-limiting DoF whose target
velocity and target acceleration are both within `eps` of zero is assigned
its Step1 minimum-duration profile `blocks[dof].p_min`, and the Step2 solver
is not invoked for that DoF (it does not appear in the instrumented list of
Step2 invocations). -/
theorem calculate_time_if_necessary_short_circuit {n : ℕ} (S : Solvers n)
    (st : ProfileTrajectory n) (inp : InputParameter n) (dt : ℝ) (g : Bool)
    (dof : Fin n)
    (hres : (calcFull S st inp dt g).result = .Working)
    (hsync : inp.synchronization = .TimeIfNecessary)
    (hdur : 0 < (calcFull S st inp dt g).st.duration)
    (hen : inp.enabled dof = true)
    (hlim : ((dof : ℕ) : ℤ) ≠ (calcFull S st inp dt g).limiting_dof)
    (htv : |inp.target_velocity dof| < eps)
    (hta : |inp.target_acceleration dof| < eps) :
    (calcFull S st inp dt g).st.profiles dof =
      ((calcFull S st inp dt g).blocks dof).p_min ∧
    dof ∉ (calcFull S st inp dt g).step2_invoked := by
  rcases hl : step1Loop S inp (allDofs n) (initAcc st) with ⟨r, st'⟩ | acc
  · have hfull : calcFull S st inp dt g = ⟨r, st', fun _ => Block.init, -1, []⟩ := by
      simp only [calcFull, hl]
    rw [hfull] at hres
    have herr := (step1Loop_error_frame (allDofs n) (initAcc st) (r, st') hl).1
    simp only at hres
    rw [hres] at herr
    cases herr
  · have hfull : calcFull S st inp dt g = calcPost S inp dt g acc := by
      simp only [calcFull, hl]
    rw [hfull] at hres hdur hlim ⊢
    exact calcPost_tin_profile hres hsync hdur hen hlim htv hta

theorem allDofs_one : allDofs 1 = [(0 : Fin 1)] := by
  simp [allDofs, List.ofFn_succ]

theorem calcFail_eval :
    ProfileTrajectory.calculate solversFail trajW inpW1 (1 / 100) false =
      (.ErrorExecutionTimeCalculation,
        { duration := 0, independent_min_durations := fun _ => 0,
          profiles := Function.update (fun _ => Profile.init) 0
            (step1Prep solversFail inpW1 0 Profile.init).1 }) := by
  have hdof : step1Dof solversFail inpW1 (initAcc trajW) 0 =
      .error (.ErrorExecutionTimeCalculation,
        { duration := 0, independent_min_durations := fun _ => 0,
          profiles := Function.update (fun _ => Profile.init) 0
            (step1Prep solversFail inpW1 0 Profile.init).1 }) := rfl
  have hloop : step1Loop solversFail inpW1 (allDofs 1) (initAcc trajW) =
      .error (.ErrorExecutionTimeCalculation,
        { duration := 0, independent_min_durations := fun _ => 0,
          profiles := Function.update (fun _ => Profile.init) 0
            (step1Prep solversFail inpW1 0 Profile.init).1 }) := by
    rw [allDofs_one]
    simp only [step1Loop, hdof]
  simp only [ProfileTrajectory.calculate, calcFull, hloop]

theorem solversFail_prep_t_brake :
    (step1Prep solversFail inpW1 0 Profile.init).1.t_brake = some 0 := by
  simp [step1Prep, solversFail, inpW1]

/-- C1 (counterexample): `calculate` mutates the stored trajectory state
before returning an error.  With a freshly constructed trajectory (all
profiles default, `t_brake` disengaged) and a Step1 solver that fails (a
legitimate behaviour per spec section 4.3), `calculate` returns
`ErrorExecutionTimeCalculation`, yet the stored profile of DoF 0 has already
been overwritten with the brake fields (its `t_brake` is now engaged), so the
stored state differs from its value before the call. -/
theorem calculate_error_mutates_stored_state :
    (ProfileTrajectory.calculate solversFail trajW inpW1 (1 / 100) false).1 =
      .ErrorExecutionTimeCalculation ∧
    ((ProfileTrajectory.calculate solversFail trajW inpW1 (1 / 100) false).2.profiles 0).t_brake
      ≠ ((trajW (n := 1)).profiles 0).t_brake := by
  rw [calcFail_eval]
  refine ⟨rfl, ?_⟩
  show (Function.update (fun _ => Profile.init) 0
      (step1Prep solversFail inpW1 0 Profile.init).1 0).t_brake ≠ _
  rw [Function.update_same, solversFail_prep_t_brake]
  simp [trajW, Profile.init]

theorem calculate_step1_error_preserves_duration_witness :
    (ProfileTrajectory.calculate solversFail trajW inpW1 (1 / 100) false).1 =
      .ErrorExecutionTimeCalculation ∧
    (ProfileTrajectory.calculate solversFail trajW inpW1 (1 / 100) false).2.duration =
      (trajW (n := 1)).duration :=
  ⟨by rw [calcFail_eval],
   calculate_step1_error_preserves_duration solversFail trajW inpW1 (1 / 100) false
     (by rw [calcFail_eval])⟩

theorem calcDis_eval :
    ProfileTrajectory.calculate solversSync1 trajW inpDis (1 / 100) false =
      (.Working,
        { duration := 1, independent_min_durations := fun _ => 0,
          profiles := Function.update (fun _ => Profile.init) 0
            (disabledUpdate inpDis 0 Profile.init) }) := by
  have hloop : step1Loop solversSync1 inpDis (allDofs 1) (initAcc trajW) =
      .ok ⟨⟨0, fun _ => 0, Function.update (fun _ => Profile.init) 0
            (disabledUpdate inpDis 0 Profile.init)⟩,
        fun _ => Block.init, fun _ => 0, fun _ => 0, fun _ => 0, fun _ => 0,
        fun _ => 0⟩ := by
    rw [allDofs_one]
    rfl
  have hpost : calcPost solversSync1 inpDis (1 / 100) false
      ⟨⟨0, fun _ => 0, Function.update (fun _ => Profile.init) 0
            (disabledUpdate inpDis 0 Profile.init)⟩,
        fun _ => Block.init, fun _ => 0, fun _ => 0, fun _ => 0, fun _ => 0,
        fun _ => 0⟩ =
      ⟨.Working, ⟨1, fun _ => 0, Function.update (fun _ => Profile.init) 0
            (disabledUpdate inpDis 0 Profile.init)⟩,
        fun _ => Block.init, -1, []⟩ := by
    simp only [calcPost, solversSync1]
    rw [if_neg (by simp), if_neg (by simp), if_pos ⟨by norm_num, by simp [inpDis]⟩]
    rw [allDofs_one]
    rw [step2Loop, step2Dof_skip (Or.inl rfl)]
    rfl
  simp only [ProfileTrajectory.calculate, calcFull, hloop, hpost]

/-- C2 (counterexample): a disabled DoF does not hold its position.  With the
single DoF disabled, current position 0 and current velocity 1, `calculate`
succeeds (duration 1), yet `at_time(1)` writes `new_position[0] = 1`, not the
cycle's `current_position[0] = 0` — the disabled DoF's stored terminal state
is the full current kinematic state and `at_time` extrapolates it with
constant acceleration. -/
theorem disabled_dof_position_drifts :
    (ProfileTrajectory.calculate solversSync1 trajW inpDis (1 / 100) false).1 = .Working ∧
    inpDis.enabled 0 = false ∧
    (0 : ℝ) ≤ 1 ∧
    (1 : ℝ) ≤ (ProfileTrajectory.calculate solversSync1 trajW inpDis (1 / 100) false).2.duration ∧
    ((ProfileTrajectory.calculate solversSync1 trajW inpDis (1 / 100) false).2.at_time 1).1 0
      ≠ inpDis.current_position 0 := by
  rw [calcDis_eval]
  refine ⟨rfl, rfl, by norm_num, by norm_num, ?_⟩
  rw [ProfileTrajectory.at_time]
  rw [if_neg (by norm_num)]
  show (profileAtTime (Function.update (fun _ => Profile.init) 0
      (disabledUpdate inpDis 0 Profile.init) 0) 1).1 ≠ _
  rw [Function.update_same]
  norm_num [profileAtTime, profileTail, disabledUpdate, Profile.init, Profile.integrate,
    inpDis]

theorem calculate_disabled_dof_extrapolates_witness :
    inpDis.enabled 0 = false ∧
    ((trajW (n := 1)).profiles 0).t_brake = Option.none ∧
    (ProfileTrajectory.calculate solversSync1 trajW inpDis (1 / 100) false).1 = .Working ∧
    (0 : ℝ) ≤ 1 ∧
    (1 : ℝ) ≤ (ProfileTrajectory.calculate solversSync1 trajW inpDis (1 / 100) false).2.duration ∧
    ((ProfileTrajectory.calculate solversSync1 trajW inpDis (1 / 100) false).2.at_time 1).1 0 =
      inpDis.current_position 0 + inpDis.current_velocity 0 * 1
        + inpDis.current_acceleration 0 * 1 ^ 2 / 2 :=
  ⟨rfl, rfl, by rw [calcDis_eval], by norm_num, by rw [calcDis_eval],
   calculate_disabled_dof_extrapolates solversSync1 trajW inpDis (1 / 100) false 0 1
     rfl rfl (by rw [calcDis_eval]) (by norm_num) (by rw [calcDis_eval])⟩

theorem allDofs_two : allDofs 2 = [0, 1] := by
  simp [allDofs, List.ofFn_succ]

theorem calcTIN_eval :
    calcFull solversTwo trajW inpTIN (1 / 100) false =
      ⟨.Working,
        ⟨5, accTIN.st.independent_min_durations,
          Function.update accTIN.st.profiles 1 (accTIN.blocks 1).p_min⟩,
        accTIN.blocks, 0, []⟩ := by
  have hloop : step1Loop solversTwo inpTIN (allDofs 2) (initAcc trajW) = .ok accTIN := by
    rw [allDofs_two]
    rfl
  have hsk1cond : ¬(inpTIN.enabled 1 = false ∨ (((1 : Fin 2) : ℕ) : ℤ) = 0) := by
    rintro (hc | hc)
    · exact absurd hc (by simp [inpTIN])
    · norm_num at hc
  have hcond1 : inpTIN.synchronization = .TimeIfNecessary ∧
      |inpTIN.target_velocity 1| < eps ∧ |inpTIN.target_acceleration 1| < eps :=
    ⟨rfl, by norm_num [inpTIN, eps], by norm_num [inpTIN, eps]⟩
  have hs2 : step2Loop solversTwo inpTIN 5 0 accTIN.blocks accTIN.p0s accTIN.v0s
      accTIN.a0s accTIN.minV accTIN.minA [0, 1] ⟨accTIN.st.profiles, []⟩ =
      .ok ⟨Function.update accTIN.st.profiles 1 (accTIN.blocks 1).p_min, []⟩ := by
    have hsk0 : inpTIN.enabled 0 = false ∨ (((0 : Fin 2) : ℕ) : ℤ) = (0 : ℤ) :=
      Or.inr (by norm_num)
    rw [step2Loop, step2Dof_skip hsk0]
    show step2Loop solversTwo inpTIN 5 0 accTIN.blocks accTIN.p0s accTIN.v0s
      accTIN.a0s accTIN.minV accTIN.minA [1] ⟨accTIN.st.profiles, []⟩ = _
    rw [step2Loop, step2Dof_tin hsk1cond hcond1]
    rfl
  have hsync_eval : solversTwo.synchronize accTIN.blocks inpTIN.minimum_duration
      accTIN.st.profiles (inpTIN.duration_discretization = .Discrete) (1 / 100) =
      ⟨true, 5, 0⟩ := rfl
  have hpost : calcPost solversTwo inpTIN (1 / 100) false accTIN =
      ⟨.Working,
        ⟨5, accTIN.st.independent_min_durations,
          Function.update accTIN.st.profiles 1 (accTIN.blocks 1).p_min⟩,
        accTIN.blocks, 0, []⟩ := by
    simp only [calcPost, hsync_eval]
    rw [if_neg (by simp), if_neg (by simp),
      if_pos ⟨by norm_num, by simp [inpTIN]⟩]
    rw [allDofs_two, hs2]
  simp only [calcFull, hloop, hpost]

theorem calculate_time_if_necessary_short_circuit_witness :
    (calcFull solversTwo trajW inpTIN (1 / 100) false).result = .Working ∧
    inpTIN.synchronization = .TimeIfNecessary ∧
    0 < (calcFull solversTwo trajW inpTIN (1 / 100) false).st.duration ∧
    inpTIN.enabled 1 = true ∧
    (((1 : Fin 2) : ℕ) : ℤ) ≠ (calcFull solversTwo trajW inpTIN (1 / 100) false).limiting_dof ∧
    |inpTIN.target_velocity 1| < eps ∧
    |inpTIN.target_acceleration 1| < eps ∧
    ((calcFull solversTwo trajW inpTIN (1 / 100) false).st.profiles 1 =
      ((calcFull solversTwo trajW inpTIN (1 / 100) false).blocks 1).p_min ∧
     (1 : Fin 2) ∉ (calcFull solversTwo trajW inpTIN (1 / 100) false).step2_invoked) :=
  ⟨by rw [calcTIN_eval], rfl, by rw [calcTIN_eval]; norm_num, rfl,
   by rw [calcTIN_eval]; norm_num, by norm_num [inpTIN, eps], by norm_num [inpTIN, eps],
   calculate_time_if_necessary_short_circuit solversTwo trajW inpTIN (1 / 100) false 1
     (by rw [calcTIN_eval]) rfl (by rw [calcTIN_eval]; norm_num) rfl
     (by rw [calcTIN_eval]; norm_num) (by norm_num [inpTIN, eps])
     (by norm_num [inpTIN, eps])⟩

theorem scanl_add_concat (l : List ℝ) (x : ℝ) : ∀ a : ℝ,
    (l ++ [x]).scanl (· + ·) a = l.scanl (· + ·) a ++ [a + l.sum + x] := by
  induction l with
  | nil =>
    intro a
    simp [List.scanl]
  | cons y t ih =>
    intro a
    simp only [List.cons_append, List.scanl_cons, ih (a + y), List.sum_cons]
    simp [add_assoc]

theorem scanl_add_get (l : List ℝ) : ∀ (a : ℝ) (k : ℕ), k ≤ l.length →
    (l.scanl (· + ·) a).get? k = some (a + (l.take k).sum) := by
  induction l with
  | nil =>
    intro a k hk
    simp only [List.length_nil, Nat.le_zero] at hk
    subst hk
    simp [List.scanl]
  | cons y t ih =>
    intro a k hk
    cases k with
    | zero => simp [List.scanl_cons]
    | succ k' =>
      simp only [List.scanl_cons, List.singleton_append, List.get?_cons_succ,
        List.take_succ_cons, List.sum_cons]
      rw [ih (a + y) k' (by simpa using hk)]
      simp [add_assoc]

theorem scanl_add_head (a : ℝ) (l : List ℝ) : ∃ t, l.scanl (· + ·) a = a :: t := by
  cases l <;> exact ⟨_, rfl⟩

theorem scanl_add_chain (l : List ℝ) : ∀ a : ℝ, (∀ x ∈ l, 0 < x) →
    (l.scanl (· + ·) a).Chain' (· < ·) := by
  induction l with
  | nil =>
    intro a _
    simp [List.scanl]
  | cons y t ih =>
    intro a h
    rw [List.scanl_cons, List.singleton_append]
    obtain ⟨t', ht'⟩ := scanl_add_head (a + y) t
    rw [ht', List.chain'_cons]
    constructor
    · have := h y (by simp)
      linarith
    · rw [← ht']
      exact ih (a + y) fun x hx => h x (by simp [hx])

theorem scanl_add_mem_le (l : List ℝ) : ∀ a x : ℝ, (∀ y ∈ l, 0 ≤ y) →
    x ∈ l.scanl (· + ·) a → x ≤ a + l.sum := by
  induction l with
  | nil =>
    intro a x _ hx
    simp [List.scanl] at hx
    simp [hx]
  | cons y t ih =>
    intro a x h hx
    rw [List.scanl_cons, List.singleton_append, List.mem_cons] at hx
    have h0 : 0 ≤ y := h y (by simp)
    have h1 : 0 ≤ t.sum := List.sum_nonneg fun z hz => h z (by simp [hz])
    rcases hx with rfl | hx
    · simp only [List.sum_cons]
      linarith
    · have := ih (a + y) x (fun z hz => h z (by simp [hz])) hx
      simp only [List.sum_cons]
      linarith

theorem resolveFrom_length (ws : List (PathWaypoint n)) :
    ∀ prev : Vec n, (resolveFrom prev ws).length = ws.length := by
  induction ws with
  | nil => intro prev; rfl
  | cons w t ih => intro prev; simp [resolveFrom, ih]

theorem buildStep_prev_stop (mbd : ℝ) (acc : BuildAcc n)
    (item : LinearSegment n × PathWaypoint n) :
    (buildStep mbd acc item).prev.stop = item.1.stop := by
  rw [buildStep]
  split <;> rfl

theorem buildLoop_prev_stop (mbd : ℝ) :
    ∀ (items : List (LinearSegment n × PathWaypoint n)) (acc : BuildAcc n),
      ((items.foldl (buildStep mbd) acc).prev).stop =
        ((items.getLast?.map fun it => it.1.stop).getD acc.prev.stop) := by
  intro items
  induction items with
  | nil => intro acc; rfl
  | cons it rest ih =>
    intro acc
    rw [List.foldl_cons, ih]
    cases rest with
    | nil => simp [buildStep_prev_stop]
    | cons r t =>
      cases hgl : (r :: t).getLast? with
      | none => simp at hgl
      | some v => simp [List.getLast?_cons_cons, hgl]

theorem scanl_add_concat2 (l : List ℝ) (x y a : ℝ) :
    (l ++ [x, y]).scanl (· + ·) a =
      l.scanl (· + ·) a ++ [a + l.sum + x, a + l.sum + x + y] := by
  rw [show l ++ [x, y] = (l ++ [x]) ++ [y] by simp, scanl_add_concat, scanl_add_concat]
  simp [add_assoc]

theorem buildStep_inv {start : Vec n} {mbd : ℝ} {acc : BuildAcc n}
    {item : LinearSegment n × PathWaypoint n} (h : BuildInv start acc) :
    BuildInv start (buildStep mbd acc item) := by
  rw [buildStep]
  split
  · refine ⟨?_, ?_, ?_⟩
    · dsimp only
      rw [List.map_append, List.map_cons, List.map_cons, List.map_nil,
        scanl_add_concat2, ← h.cls_eq, ← h.cum_eq]
      simp [Segment.length]
    · dsimp only
      rw [List.map_append, List.sum_append, ← h.cum_eq]
      simp [Segment.length, add_assoc]
    · rcases h.head_ok with ⟨hsegs, hstart⟩ | ⟨lsg, t, hseq, hst⟩
      · right
        dsimp only
        rw [hsegs, List.nil_append]
        exact ⟨_, _, rfl, hstart⟩
      · right
        dsimp only
        rw [hseq, List.cons_append]
        exact ⟨lsg, _, rfl, hst⟩
  · refine ⟨?_, ?_, ?_⟩
    · dsimp only
      rw [List.map_append, List.map_cons, List.map_nil, scanl_add_concat,
        ← h.cls_eq, ← h.cum_eq]
      simp [Segment.length]
    · dsimp only
      rw [List.map_append, List.sum_append, ← h.cum_eq]
      simp [Segment.length]
    · rcases h.head_ok with ⟨hsegs, hstart⟩ | ⟨lsg, t, hseq, hst⟩
      · right
        dsimp only
        rw [hsegs, List.nil_append]
        exact ⟨acc.prev, [], rfl, hstart⟩
      · right
        dsimp only
        rw [hseq, List.cons_append]
        exact ⟨lsg, _, rfl, hst⟩

theorem buildLoop_inv {start : Vec n} {mbd : ℝ} :
    ∀ (items : List (LinearSegment n × PathWaypoint n)) (acc : BuildAcc n),
      BuildInv start acc → BuildInv start (items.foldl (buildStep mbd) acc) := by
  intro items
  induction items with
  | nil => intro acc h; exact h
  | cons it rest ih =>
    intro acc h
    rw [List.foldl_cons]
    exact ih _ (buildStep_inv h)

theorem items_last_stop (ws : List (PathWaypoint n)) : ∀ a1 : Vec n, ws ≠ [] →
    (((List.zipWith linSeg (a1 :: resolveFrom a1 ws) (resolveFrom a1 ws)).zip ws).getLast?.map
      fun it => it.1.stop) = (a1 :: resolveFrom a1 ws).getLast? := by
  induction ws with
  | nil =>
    intro a1 h
    exact absurd rfl h
  | cons w t ih =>
    intro a1 _
    cases t with
    | nil =>
      simp [resolveFrom, linSeg]
    | cons w2 t2 =>
      have hne2 : w2 :: t2 ≠ [] := by simp
      have hih := ih (resolveOne a1 w) hne2
      rw [resolveFrom, List.zipWith_cons_cons, List.zip_cons_cons]
      have hZne : (List.zipWith linSeg
          (resolveOne a1 w :: resolveFrom (resolveOne a1 w) (w2 :: t2))
          (resolveFrom (resolveOne a1 w) (w2 :: t2))).zip (w2 :: t2) ≠ [] := by
        intro hc
        have hlen := congrArg List.length hc
        simp [resolveFrom_length] at hlen
      obtain ⟨z, zs, hzs⟩ := List.exists_cons_of_ne_nil hZne
      rw [hzs, List.getLast?_cons_cons, ← hzs, hih]
      have hr : resolveFrom (resolveOne a1 w) (w2 :: t2) ≠ [] := by
        rw [resolveFrom]
        simp
      obtain ⟨r, rs, hrs⟩ := List.exists_cons_of_ne_nil hr
      rw [hrs, List.getLast?_cons_cons, List.getLast?_cons_cons,
        List.getLast?_cons_cons]

theorem pathMk_cons (start : Vec n) (w : PathWaypoint n) (ws : List (PathWaypoint n))
    (mbd : ℝ) :
    pathMk start (w :: ws) mbd =
      ⟨start :: resolveOne start w :: resolveFrom (resolveOne start w) ws,
        (buildOf start w ws mbd).segs ++ [.linear (buildOf start w ws mbd).prev],
        (buildOf start w ws mbd).cls,
        (buildOf start w ws mbd).cum + (buildOf start w ws mbd).prev.length⟩ := rfl

theorem buildOf_inv (start : Vec n) (w : PathWaypoint n) (ws : List (PathWaypoint n))
    (mbd : ℝ) : BuildInv start (buildOf start w ws mbd) :=
  buildLoop_inv _ _ ⟨rfl, rfl, Or.inl ⟨rfl, rfl⟩⟩

theorem buildOf_prev_stop (start : Vec n) (w : PathWaypoint n)
    (ws : List (PathWaypoint n)) (mbd : ℝ) :
    (buildOf start w ws mbd).prev.stop =
      ((start :: resolveOne start w :: resolveFrom (resolveOne start w) ws).getLast?).getD
        start := by
  rw [buildOf, buildLoop_prev_stop]
  cases ws with
  | nil =>
    simp [resolveFrom, linSeg]
  | cons w2 t2 =>
    have h := items_last_stop (w2 :: t2) (resolveOne start w) (by simp)
    rw [h]
    have hne : resolveOne start w :: resolveFrom (resolveOne start w) (w2 :: t2) ≠ [] := by
      simp
    obtain ⟨v, hv⟩ := Option.isSome_iff_exists.mp (List.getLast?_isSome.mpr hne)
    rw [List.getLast?_cons_cons, hv]
    rfl

/-- C5 (amended): path closure holds under positivity of the compiled
segment lengths.  For a path built from `start` and a nonempty waypoint list,
if every compiled segment has positive stored length (duplicate waypoints
violate this, see the counterexample) and the segment count is below
`2 ^ 64`, then `q(0) = start`, `q(length)` is the last resolved absolute
waypoint `absolute_waypoints[N]`, and `cumulative_lengths` is strictly
increasing. -/
theorem path_closure (start : Vec n) (waypoints : List (PathWaypoint n)) (mbd : ℝ)
    (hne : waypoints ≠ [])
    (hpos : ∀ sg ∈ (pathMk start waypoints mbd).segments, 0 < Segment.length sg)
    (hM : (pathMk start waypoints mbd).segments.length < 2 ^ 64) :
    (pathMk start waypoints mbd).q 0 = some start ∧
    (pathMk start waypoints mbd).q (pathMk start waypoints mbd).length =
      (pathMk start waypoints mbd).absolute_waypoints.getLast? ∧
    List.Chain' (· < ·) (pathMk start waypoints mbd).cumulative_lengths := by
  obtain ⟨w, ws, rfl⟩ := List.exists_cons_of_ne_nil hne
  have hinv := buildOf_inv start w ws mbd
  set A := buildOf start w ws mbd with hA
  have hseg_eq : (pathMk start (w :: ws) mbd).segments =
      A.segs ++ [.linear A.prev] := by rw [pathMk_cons]
  have hcl_eq : (pathMk start (w :: ws) mbd).cumulative_lengths = A.cls := by
    rw [pathMk_cons]
  have hlen_eq : (pathMk start (w :: ws) mbd).length = A.cum + A.prev.length := by
    rw [pathMk_cons]
  have haw_eq : (pathMk start (w :: ws) mbd).absolute_waypoints =
      start :: resolveOne start w :: resolveFrom (resolveOne start w) ws := by
    rw [pathMk_cons]
  have hpos_prev : 0 < A.prev.length := by
    have := hpos (.linear A.prev) (by rw [hseg_eq]; simp)
    simpa [Segment.length] using this
  have hpos_lens : ∀ x ∈ A.segs.map Segment.length, 0 < x := by
    intro x hx
    rw [List.mem_map] at hx
    obtain ⟨sg, hsg, rfl⟩ := hx
    exact hpos sg (by rw [hseg_eq]; simp [hsg])
  have hnonneg : ∀ x ∈ A.segs.map Segment.length, 0 ≤ x :=
    fun x hx => le_of_lt (hpos_lens x hx)
  refine ⟨?_, ?_, ?_⟩
  · -- q 0 = some start
    have hub0 : upperBound 0 (pathMk start (w :: ws) mbd).cumulative_lengths = 1 := by
      rw [hcl_eq, hinv.cls_eq]
      cases hl : A.segs.map Segment.length with
      | nil => simp [upperBound, List.scanl]
      | cons L ls' =>
        rw [List.scanl_cons, List.singleton_append]
        obtain ⟨t', ht'⟩ := scanl_add_head (0 + L) ls'
        rw [ht']
        have hL0 : (0 : ℝ) < L := hpos_lens L (by rw [hl]; simp)
        have hL : (0 : ℝ) < 0 + L := by linarith
        simp [upperBound, hL, hL0]
    have hfi0 : (pathMk start (w :: ws) mbd).find_index 0 = some (0, 0 - 0) := by
      rw [Path.find_index, hub0]
      have hidx : (1 + (2 ^ 64 - 1)) % 2 ^ 64 = 0 := by norm_num
      rw [hidx]
      have hget : (pathMk start (w :: ws) mbd).cumulative_lengths.get? 0 = some 0 := by
        rw [hcl_eq, hinv.cls_eq]
        obtain ⟨t', ht'⟩ := scanl_add_head 0 (A.segs.map Segment.length)
        rw [ht']
        rfl
      rw [hget]
      rfl
    rw [Path.q, hfi0]
    rcases hinv.head_ok with ⟨hsegs, hstart⟩ | ⟨lsg, t, hseq, hst⟩
    · rw [hseg_eq, hsegs, List.nil_append]
      show some (Segment.q (.linear A.prev) (0 - 0)) = some start
      congr 1
      funext d
      simp only [Segment.q, LinearSegment.q, sub_zero, zero_div, zero_mul, add_zero]
      exact congrFun hstart d
    · rw [hseg_eq, hseq, List.cons_append]
      show some (Segment.q (.linear lsg) (0 - 0)) = some start
      congr 1
      funext d
      simp only [Segment.q, LinearSegment.q, sub_zero, zero_div, zero_mul, add_zero]
      exact congrFun hst d
  · -- q length = last absolute waypoint
    have hseglen : (pathMk start (w :: ws) mbd).segments.length = A.segs.length + 1 := by
      rw [hseg_eq]
      simp
    have hclslen : A.cls.length = A.segs.length + 1 := by
      rw [hinv.cls_eq, List.length_scanl, List.length_map]
    have hMlt : A.cls.length < 2 ^ 64 := by
      rw [hclslen]
      rw [hseglen] at hM
      exact hM
    have huble : upperBound (A.cum + A.prev.length) A.cls = A.cls.length := by
      apply upperBound_eq_length
      intro x hx
      rw [hinv.cls_eq] at hx
      have hle := scanl_add_mem_le (A.segs.map Segment.length) 0 x hnonneg hx
      rw [← hinv.cum_eq] at hle
      intro hc
      have : x ≤ A.cum := by linarith [hle]
      linarith
    have hidxle : (A.cls.length + (2 ^ 64 - 1)) % 2 ^ 64 = A.cls.length - 1 := by
      have h1 : 1 ≤ A.cls.length := by omega
      omega
    have hgetlast : A.cls.get? (A.cls.length - 1) = some A.cum := by
      have hll : A.cls.length - 1 = (A.segs.map Segment.length).length := by
        rw [hclslen, List.length_map]
        omega
      rw [hll, hinv.cls_eq,
        scanl_add_get (A.segs.map Segment.length) 0 (A.segs.map Segment.length).length
          (le_refl _),
        List.take_length, ← hinv.cum_eq]
      simp
    have hfil : (pathMk start (w :: ws) mbd).find_index
        ((pathMk start (w :: ws) mbd).length) =
        some (A.cls.length - 1, A.cum + A.prev.length - A.cum) := by
      rw [Path.find_index, hcl_eq, hlen_eq, huble, hidxle, hgetlast]
      rfl
    have hgetseg : (pathMk start (w :: ws) mbd).segments.get? (A.cls.length - 1) =
        some (.linear A.prev) := by
      rw [hseg_eq]
      have hll : A.cls.length - 1 = A.segs.length := by omega
      rw [hll]
      exact List.get?_concat_length _ _
    rw [Path.q, hfil]
    have hqv : Segment.q (.linear A.prev) (A.cum + A.prev.length - A.cum) =
        A.prev.stop := by
      funext d
      simp only [Segment.q, LinearSegment.q]
      have hs : A.cum + A.prev.length - A.cum = A.prev.length := by ring
      rw [hs, div_self (ne_of_gt hpos_prev)]
      ring
    have hstop := buildOf_prev_stop start w ws mbd
    rw [haw_eq]
    have hnea : start :: resolveOne start w :: resolveFrom (resolveOne start w) ws ≠ [] :=
      by simp
    obtain ⟨v, hv⟩ := Option.isSome_iff_exists.mp (List.getLast?_isSome.mpr hnea)
    rw [hv]
    show ((pathMk start (w :: ws) mbd).segments.get? (A.cls.length - 1)).map
      (fun sg => sg.q (A.cum + A.prev.length - A.cum)) = some v
    rw [hgetseg]
    show some (Segment.q (.linear A.prev) (A.cum + A.prev.length - A.cum)) = some v
    rw [hqv]
    rw [hv, Option.getD_some] at hstop
    rw [hA, hstop]
  · rw [hcl_eq, hinv.cls_eq]
    exact scanl_add_chain (A.segs.map Segment.length) 0 hpos_lens

/-- C5 (counterexample): a waypoint that coincides with the start vector
compiles to a zero-length first segment, and the resulting
`cumulative_lengths` of `pathDup` is `[0, 0]` — not strictly increasing, so
the unconditional strict-monotonicity part of the claim fails. -/
theorem duplicate_waypoint_breaks_monotonicity :
    ¬ List.Chain' (· < ·) pathDup.cumulative_lengths := by
  have hs : sumSq (fun _ : Fin 1 => (0 : ℝ)) (fun _ => (0 : ℝ)) = 0 := by
    simp [sumSq, allDofs]
  simp [pathDup, pathMk_cons, buildOf, resolveFrom, resolveOne, buildStep,
    linSeg, hs]

theorem path_closure_witness :
    ([{ vector := fun _ => (1 : ℝ) }] : List (PathWaypoint 1)) ≠ [] ∧
    (∀ sg ∈ pathW1.segments, 0 < Segment.length sg) ∧
    pathW1.segments.length < 2 ^ 64 ∧
    (pathW1.q 0 = some (fun _ => 0) ∧
     pathW1.q pathW1.length = pathW1.absolute_waypoints.getLast? ∧
     List.Chain' (· < ·) pathW1.cumulative_lengths) := by
  have hone : sumSq (fun _ : Fin 1 => (0 : ℝ)) (fun _ => (1 : ℝ)) = 1 := by
    simp [sumSq, allDofs]
  have hpos : ∀ sg ∈ pathW1.segments, 0 < Segment.length sg := by
    rw [pathW1_segments]
    intro sg hsg
    simp only [List.mem_singleton] at hsg
    subst hsg
    simp [Segment.length, linSeg, hone]
  have hM : pathW1.segments.length < 2 ^ 64 := by
    rw [pathW1_segments]
    norm_num
  exact ⟨by simp, hpos, hM,
    path_closure (fun _ => 0) [{ vector := fun _ => (1 : ℝ) }] 0 (by simp) hpos hM⟩

end ruckig


